import Mathlib

/-!
Verification of the dynamic U-Net construction and forward-execution core of
`src/models/unet_dilation.py` (Wave-U-Net for speech enhancement).

Tensors are modelled channel-first as `[batch, channels, length]` with a total
data function; data values are rationals (the float arithmetic of the source is
modelled exactly over `ℚ`, except for the final saturating `tanh`, which is
modelled by `Real.tanh`).  Fallible tensor-library operations return
`Except String`.
-/

namespace WaveUNet

/-- A `[batch, channels, length]` tensor; `data b c t` is the element at batch
index `b`, channel `c`, time `t` (arbitrary outside the shape bounds). -/
structure Tensor (α : Type) where
  batch : Nat
  channels : Nat
  length : Nat
  data : Nat → Nat → Nat → α

/-- Hyper-parameters and learned parameters of one `nn.Conv1d`. -/
structure Conv1dParams where
  channel_in : Nat
  channel_out : Nat
  kernel_size : Nat
  stride : Nat
  padding : Nat
  dilation : Nat
  weight : Nat → Nat → Nat → ℚ
  bias : Nat → ℚ

/-- `nn.BatchNorm1d` in inference mode (running statistics) is the per-channel
affine map `x ↦ scale c * x + shift c` with `scale c = γ c / sqrt (var c + ε)`
and `shift c = β c - mean c * scale c`; the external library primitive is
abstracted by arbitrary per-channel rational coefficients. -/
structure BatchNorm1dParams where
  num_features : Nat
  scale : Nat → ℚ
  shift : Nat → ℚ

/-- Reading the (conceptually zero-) padded input of a convolution: padded
coordinate `m` maps back to original coordinate `m - pad`, zero outside. -/
def paddedAt (x : Tensor ℚ) (b c m pad : Nat) : ℚ :=
  if m < pad ∨ x.length + pad ≤ m then 0 else x.data b c (m - pad)

/-- `nn.Conv1d` applied to a `[batch, channels, length]` tensor.  Output length
is `(l_in + 2*padding - (dilation*(kernel_size-1)+1)) / stride + 1`; the
library rejects non-positive kernel/stride, a channel mismatch, and an
effective kernel larger than the padded input. -/
def conv1d (p : Conv1dParams) (x : Tensor ℚ) : Except String (Tensor ℚ) :=
  if p.kernel_size = 0 then .error "conv1d: kernel size must be positive"
  else if p.stride = 0 then .error "conv1d: stride must be positive"
  else if x.channels ≠ p.channel_in then .error "conv1d: channel mismatch"
  else if x.length + 2 * p.padding < p.dilation * (p.kernel_size - 1) + 1 then
    .error "conv1d: effective kernel size exceeds padded input size"
  else .ok
    { batch := x.batch
      channels := p.channel_out
      length := (x.length + 2 * p.padding - (p.dilation * (p.kernel_size - 1) + 1)) / p.stride + 1
      data := fun b c t =>
        p.bias c + ∑ ci ∈ Finset.range p.channel_in, ∑ j ∈ Finset.range p.kernel_size,
          p.weight c ci j * paddedAt x b ci (t * p.stride + j * p.dilation) p.padding }

/-- `nn.BatchNorm1d` in inference mode; rejects a feature-count mismatch. -/
def batchNorm1d (bn : BatchNorm1dParams) (x : Tensor ℚ) : Except String (Tensor ℚ) :=
  if x.channels ≠ bn.num_features then .error "batchnorm1d: feature mismatch"
  else .ok { x with data := fun b c t => bn.scale c * x.data b c t + bn.shift c }

/-- `nn.LeakyReLU`: identity on non-negatives, `slope * x` on negatives. -/
def leakyReLU (slope : ℚ) (x : Tensor ℚ) : Tensor ℚ :=
  { x with data := fun b c t => if 0 ≤ x.data b c t then x.data b c t else slope * x.data b c t }

/-- The strided slice `o[:, :, ::2]`: keep every second time sample.  A slice
with step 2 of a length-`T` axis has `⌈T/2⌉ = (T+1)/2` elements. -/
def decimate (x : Tensor ℚ) : Tensor ℚ :=
  { x with length := (x.length + 1) / 2, data := fun b c t => x.data b c (2 * t) }

/-- `F.interpolate(o, scale_factor=2, mode="linear", align_corners=True)`:
output length `2*T`; output index `t` maps to source position
`t*(T-1)/(2*T-1)` and is linearly interpolated between the two neighbouring
samples (for `T ≤ 1` the single sample is replicated). -/
def interpolate2 (x : Tensor ℚ) : Tensor ℚ :=
  { x with
    length := 2 * x.length
    data := fun b c t =>
      if x.length ≤ 1 then x.data b c 0
      else
        let i0 : Nat := t * (x.length - 1) / (2 * x.length - 1)
        let pos : ℚ := (t * (x.length - 1) : Nat) / ((2 * x.length - 1 : Nat) : ℚ)
        let frac : ℚ := pos - (i0 : ℚ)
        (1 - frac) * x.data b c i0 + frac * x.data b c (i0 + 1) }

/-- `torch.cat([a, b], dim=1)`: concatenation along the channel axis; all
non-concatenated dimensions must agree. -/
def cat2 (a b : Tensor ℚ) : Except String (Tensor ℚ) :=
  if a.batch = b.batch ∧ a.length = b.length then
    .ok { batch := a.batch
          channels := a.channels + b.channels
          length := a.length
          data := fun bi c t => if c < a.channels then a.data bi c t else b.data bi (c - a.channels) t }
  else .error "cat: sizes of tensors must match except in dimension 1"

/-- `nn.Tanh` applied elementwise; the exact rational intermediate values are
mapped through the real hyperbolic tangent. -/
noncomputable def tanhT (x : Tensor ℚ) : Tensor ℝ :=
  { batch := x.batch, channels := x.channels, length := x.length
    data := fun b c t => Real.tanh ((x.data b c t : ℚ) : ℝ) }

/-- Modelled from the spec: `calculate_same_padding` lives in `utils/utils.py`,
which is not among the sources.  Per the spec it is the pure symmetric padding
making a strided dilated convolution length-preserving at `stride = 1`, it
accounts for the effective receptive field `dilation * (kernel_size - 1) + 1`,
and at `stride = 1` the formula is independent of `l_in`:
solving `l_in = (l_in + 2p - (dilation*(kernel_size-1)+1)) / stride + 1` for
`p` gives `p = ((l_in - 1) * stride + dilation * (kernel_size - 1) + 1 - l_in) / 2`. -/
def calculate_same_padding (l_in kernel_size stride dilation : Nat) : Nat :=
  ((l_in - 1) * stride + dilation * (kernel_size - 1) + 1 - l_in) / 2

/-- The dictionaries passed as `dilation_in_encoder` / `dilation_in_decoder`:
parallel lists of 1-based layer indices and dilation rates. -/
structure DilationConfig where
  layers : List Nat
  dilated_rates : List Nat

/-- The per-stage dilation lookup performed inside both constructor loops
(lines 60-63 and 95-99 of the source), including the final Python-truthiness
fallback `dilated_rate if dilated_rate else 1` (lines 70/75 and 106/111):

* a missing config is `None`, so `None["layers"]` raises `TypeError`;
* `idx1 ∈ layers` mirrors `(i + 1) in dilation_in_encoder["layers"]`;
* `list.index` returns the first position of the element;
* `dilation_in_encoder["dilated_rates"][j]` raises `IndexError` out of range;
* a rate that is falsy (`0`) is replaced by 1, as is an absent rate (`None`). -/
def resolveDilation (cfg? : Option DilationConfig) (idx1 : Nat) : Except String Nat :=
  match cfg? with
  | none => .error "TypeError: NoneType object is not subscriptable"
  | some cfg =>
      if idx1 ∈ cfg.layers then
        match cfg.dilated_rates.get? (cfg.layers.indexOf idx1) with
        | none => .error "IndexError: list index out of range"
        | some r => .ok (if r = 0 then 1 else r)
      else .ok 1

/-- `encoder_in_channels_list = [1] + [i * channels_interval for i in range(1, n_layers)]`
(source line 53). -/
def encoder_in_channels_list (n ci : Nat) : List Nat :=
  1 :: (List.range' 1 (n - 1)).map (fun i => i * ci)

/-- `encoder_out_channels_list = [i * channels_interval for i in range(1, n_layers + 1)]`
(source line 54). -/
def encoder_out_channels_list (n ci : Nat) : List Nat :=
  (List.range' 1 n).map (fun i => i * ci)

/-- `decoder_in_channels_list` (source lines 87-89): the bracket-built list,
then reversed in place. -/
def decoder_in_channels_list (n ci : Nat) : List Nat :=
  ((List.range' 1 (n - 1)).map (fun i => (2 * i + 1) * ci) ++ [2 * n * ci]).reverse

/-- `decoder_out_channels_list = encoder_out_channels_list[::-1]` (source line 90). -/
def decoder_out_channels_list (n ci : Nat) : List Nat :=
  (encoder_out_channels_list n ci).reverse

/-- The `l_in` argument passed to `calculate_same_padding` when building
encoder stage `i` (source line 72): `encoder_in_channels_list[i]`. -/
def encoderPadLIn (n ci i : Nat) : Nat :=
  (encoder_in_channels_list n ci).getD i 0

/-- The `l_in` argument passed to `calculate_same_padding` when building
decoder stage `i` (source line 108): likewise `encoder_in_channels_list[i]`. -/
def decoderPadLIn (n ci i : Nat) : Nat :=
  (encoder_in_channels_list n ci).getD i 0

/-- One `DownSamplingLayer` / `UpSamplingLayer` / `self.middle` block:
`Conv1d → BatchNorm1d → LeakyReLU(0.1)`.  The two flavours differ only in the
`inplace` flag of the activation, which is tracked by the buffered execution
model, not here. -/
structure ConvBlock where
  conv : Conv1dParams
  bn : BatchNorm1dParams

/-- `block.forward(ipt)`: convolution, then batch normalization, then the
leaky rectification with negative slope `0.1`. -/
def ConvBlock.apply (l : ConvBlock) (x : Tensor ℚ) : Except String (Tensor ℚ) := do
  let y ← conv1d l.conv x
  let z ← batchNorm1d l.bn y
  pure (leakyReLU (1 / 10) z)

/-- The constructor arguments of `UNet.__init__` (source lines 35-41). -/
structure ArchitectureConfig where
  n_layers : Nat := 12
  channels_interval : Nat := 24
  kernel_size_in_encoder : Nat := 15
  kernel_size_in_decoder : Nat := 5
  dilation_in_encoder : Option DilationConfig := none
  dilation_in_decoder : Option DilationConfig := none

/-- Learned parameters of one convolution, as initialized at construction
time; the verification is parametric in them. -/
structure ConvWeights where
  weight : Nat → Nat → Nat → ℚ
  bias : Nat → ℚ

/-- Learned/running parameters of one batch-normalization (inference form). -/
structure BNWeights where
  scale : Nat → ℚ
  shift : Nat → ℚ

/-- All randomly initialized parameters the constructor creates, supplied as
an oracle indexed by stage. -/
structure WeightBank where
  encConv : Nat → ConvWeights
  encBN : Nat → BNWeights
  decConv : Nat → ConvWeights
  decBN : Nat → BNWeights
  midConv : ConvWeights
  midBN : BNWeights
  outConv : ConvWeights

/-- The assembled topology: encoder stack, `self.middle`, decoder stack and
the `self.out` 1×1 projection (the trailing `nn.Tanh` of `self.out` is applied
by `forward`). -/
structure UNet where
  n_layers : Nat
  channels_interval : Nat
  encoder : List ConvBlock
  middle : ConvBlock
  decoder : List ConvBlock
  out : Conv1dParams

/-- Encoder stage `i` as constructed on source lines 65-78, with the already
resolved dilation `d`. -/
def mkEncoderLayer (cfg : ArchitectureConfig) (w : WeightBank) (i d : Nat) : ConvBlock :=
  { conv :=
      { channel_in := (encoder_in_channels_list cfg.n_layers cfg.channels_interval).getD i 0
        channel_out := (encoder_out_channels_list cfg.n_layers cfg.channels_interval).getD i 0
        kernel_size := cfg.kernel_size_in_encoder
        stride := 1
        padding := calculate_same_padding (encoderPadLIn cfg.n_layers cfg.channels_interval i)
          cfg.kernel_size_in_encoder 1 d
        dilation := d
        weight := (w.encConv i).weight
        bias := (w.encConv i).bias }
    bn :=
      { num_features := (encoder_out_channels_list cfg.n_layers cfg.channels_interval).getD i 0
        scale := (w.encBN i).scale
        shift := (w.encBN i).shift } }

/-- Decoder stage `i` as constructed on source lines 101-114, with the already
resolved dilation `d`; note the `l_in` of its padding computation is
`encoder_in_channels_list[i]` (source line 108). -/
def mkDecoderLayer (cfg : ArchitectureConfig) (w : WeightBank) (i d : Nat) : ConvBlock :=
  { conv :=
      { channel_in := (decoder_in_channels_list cfg.n_layers cfg.channels_interval).getD i 0
        channel_out := (decoder_out_channels_list cfg.n_layers cfg.channels_interval).getD i 0
        kernel_size := cfg.kernel_size_in_decoder
        stride := 1
        padding := calculate_same_padding (decoderPadLIn cfg.n_layers cfg.channels_interval i)
          cfg.kernel_size_in_decoder 1 d
        dilation := d
        weight := (w.decConv i).weight
        bias := (w.decConv i).bias }
    bn :=
      { num_features := (decoder_out_channels_list cfg.n_layers cfg.channels_interval).getD i 0
        scale := (w.decBN i).scale
        shift := (w.decBN i).shift } }

/-- `self.middle` (source lines 80-85): `Conv1d(n*ci, n*ci, 15, 1, padding=7)`,
batch norm, inplace leaky rectification. -/
def mkMiddle (cfg : ArchitectureConfig) (w : WeightBank) : ConvBlock :=
  { conv :=
      { channel_in := cfg.n_layers * cfg.channels_interval
        channel_out := cfg.n_layers * cfg.channels_interval
        kernel_size := 15
        stride := 1
        padding := 7
        dilation := 1
        weight := w.midConv.weight
        bias := w.midConv.bias }
    bn :=
      { num_features := cfg.n_layers * cfg.channels_interval
        scale := w.midBN.scale
        shift := w.midBN.shift } }

/-- The convolution of `self.out` (source line 117):
`Conv1d(1 + channels_interval, 1, kernel_size=1, stride=1)`. -/
def mkOut (cfg : ArchitectureConfig) (w : WeightBank) : Conv1dParams :=
  { channel_in := 1 + cfg.channels_interval
    channel_out := 1
    kernel_size := 1
    stride := 1
    padding := 0
    dilation := 1
    weight := w.outConv.weight
    bias := w.outConv.bias }

/-- The `for i in range(self.n_layers)` construction loop shared by both
stacks: build the stage for each index in turn, stopping at the first raised
exception. -/
def buildLayers (build : Nat → Except String ConvBlock) : List Nat → Except String (List ConvBlock)
  | [] => .ok []
  | i :: is => do
      let l ← build i
      let rest ← buildLayers build is
      pure (l :: rest)

/-- `UNet.__init__` (source lines 35-119): builds the channel plan, resolves a
dilation per stage for each stack (which is where a missing or too-short
dilation config makes construction raise), and assembles the encoder stack,
`self.middle`, the decoder stack and the output head. -/
def UNet.init (cfg : ArchitectureConfig) (w : WeightBank) : Except String UNet := do
  let encoder ← buildLayers (fun i => do
    let d ← resolveDilation cfg.dilation_in_encoder (i + 1)
    pure (mkEncoderLayer cfg w i d)) (List.range cfg.n_layers)
  let decoder ← buildLayers (fun i => do
    let d ← resolveDilation cfg.dilation_in_decoder (i + 1)
    pure (mkDecoderLayer cfg w i d)) (List.range cfg.n_layers)
  pure
    { n_layers := cfg.n_layers
      channels_interval := cfg.channels_interval
      encoder := encoder
      middle := mkMiddle cfg w
      decoder := decoder
      out := mkOut cfg w }

/-- The encoder loop of `UNet.forward` (source lines 126-130): apply the
stage, push its output onto `tmp`, then decimate.  Returns the final `o` and
the `tmp` list in push order. -/
def encLoop : List ConvBlock → Tensor ℚ → Except String (Tensor ℚ × List (Tensor ℚ))
  | [], o => .ok (o, [])
  | l :: ls, o => do
      let y ← l.apply o
      let (o2, tmps) ← encLoop ls (decimate y)
      pure (o2, y :: tmps)

/-- The decoder loop of `UNet.forward` (source lines 135-140): upsample,
concatenate with `tmp[self.n_layers - i - 1]` (the skip tensors are consumed
deepest-first, so they are passed here as `tmp.reverse` and popped), apply the
stage.  Reading past the end of `tmp` would be an `IndexError`. -/
def decLoop : List ConvBlock → List (Tensor ℚ) → Tensor ℚ → Except String (Tensor ℚ)
  | [], _, o => .ok o
  | l :: ls, skips, o =>
      match skips with
      | [] => .error "IndexError: list index out of range"
      | s :: ss => do
          let c ← cat2 (interpolate2 o) s
          let y ← l.apply c
          decLoop ls ss y

/-- `UNet.forward` up to but not including the final `nn.Tanh` of `self.out`:
encoder loop, `self.middle`, decoder loop, concatenation with the original
input, and the 1×1 output convolution. -/
def forwardPre (u : UNet) (ipt : Tensor ℚ) : Except String (Tensor ℚ) := do
  let (o, tmps) ← encLoop u.encoder ipt
  let m ← u.middle.apply o
  let d ← decLoop u.decoder tmps.reverse m
  let c ← cat2 d ipt
  conv1d u.out c

/-- `UNet.forward` (source lines 121-144): the pipeline above followed by the
saturating `nn.Tanh` of `self.out`. -/
noncomputable def forward (u : UNet) (ipt : Tensor ℚ) : Except String (Tensor ℝ) :=
  (forwardPre u ipt).map tanhT

/-!
## Buffered execution model

To settle whether the forward pass can mutate its input through the
`inplace=True` activations, tensors are also executed against an explicit
store of buffers: every library operation allocates a fresh buffer for its
result, except `nn.LeakyReLU(..., inplace=True)` (in `UpSamplingLayer` and
`self.middle`), which overwrites the buffer of its argument.
-/

/-- A heap of tensor buffers; ids below `nextId` are allocated. -/
structure Store where
  nextId : Nat
  buf : Nat → Tensor ℚ

/-- Allocate a fresh buffer holding `t`. -/
def Store.alloc (s : Store) (t : Tensor ℚ) : Store × Nat :=
  ({ nextId := s.nextId + 1, buf := fun j => if j = s.nextId then t else s.buf j }, s.nextId)

/-- Overwrite buffer `i` in place. -/
def Store.write (s : Store) (i : Nat) (t : Tensor ℚ) : Store :=
  { s with buf := fun j => if j = i then t else s.buf j }

/-- `DownSamplingLayer.forward` on buffers: `Conv1d` and `BatchNorm1d`
allocate, and its `LeakyReLU` is *not* inplace (source line 15), so it also
allocates. -/
def downApplyB (l : ConvBlock) (s : Store) (i : Nat) : Except String (Store × Nat) := do
  let y ← conv1d l.conv (s.buf i)
  let sy := s.alloc y
  let z ← batchNorm1d l.bn (sy.1.buf sy.2)
  let sz := sy.1.alloc z
  let sr := sz.1.alloc (leakyReLU (1 / 10) (sz.1.buf sz.2))
  pure (sr.1, sr.2)

/-- `UpSamplingLayer.forward` (and `self.middle`) on buffers: its `LeakyReLU`
has `inplace=True` (source lines 28 and 84), so it overwrites the batch-norm
output buffer. -/
def upApplyB (l : ConvBlock) (s : Store) (i : Nat) : Except String (Store × Nat) := do
  let y ← conv1d l.conv (s.buf i)
  let sy := s.alloc y
  let z ← batchNorm1d l.bn (sy.1.buf sy.2)
  let sz := sy.1.alloc z
  pure (sz.1.write sz.2 (leakyReLU (1 / 10) (sz.1.buf sz.2)), sz.2)

/-- The encoder loop on buffers; `tmp` collects buffer ids (Python appends
references, not copies). -/
def encLoopB : List ConvBlock → Store → Nat → Except String (Store × Nat × List Nat)
  | [], s, i => .ok (s, i, [])
  | l :: ls, s, i => do
      let p1 ← downApplyB l s i
      let sd := p1.1.alloc (decimate (p1.1.buf p1.2))
      let p2 ← encLoopB ls sd.1 sd.2
      pure (p2.1, p2.2.1, p1.2 :: p2.2.2)

/-- The decoder loop on buffers: `F.interpolate` and `torch.cat` allocate,
the stage itself ends in an inplace activation on its own batch-norm output. -/
def decLoopB : List ConvBlock → List Nat → Store → Nat → Except String (Store × Nat)
  | [], _, s, i => .ok (s, i)
  | l :: ls, skips, s, i =>
      match skips with
      | [] => .error "IndexError: list index out of range"
      | k :: ks => do
          let su := s.alloc (interpolate2 (s.buf i))
          let c ← cat2 (su.1.buf su.2) (su.1.buf k)
          let sc := su.1.alloc c
          let p ← upApplyB l sc.1 sc.2
          decLoopB ls ks p.1 p.2

/-- `UNet.forward` on buffers, the final `nn.Tanh` (which allocates its own
output) applied to the freshly allocated 1×1-convolution result. -/
noncomputable def forwardB (u : UNet) (s : Store) (i : Nat) :
    Except String (Store × Tensor ℝ) := do
  let p1 ← encLoopB u.encoder s i
  let p2 ← upApplyB u.middle p1.1 p1.2.1
  let p3 ← decLoopB u.decoder p1.2.2.reverse p2.1 p2.2
  let c ← cat2 (p3.1.buf p3.2) (p3.1.buf i)
  let sc := p3.1.alloc c
  let y ← conv1d u.out (sc.1.buf sc.2)
  let sy := sc.1.alloc y
  pure (sy.1, tanhT (sy.1.buf sy.2))

/-!
## Specification-side predicates and concrete instances
-/

/-- The total per-stage dilation lookup: what `resolveDilation` returns when
it does not raise (its success value for any config whose rate list is long
enough). -/
def resolvedRate (cfg : DilationConfig) (idx1 : Nat) : Nat :=
  if idx1 ∈ cfg.layers then
    if cfg.dilated_rates.getD (cfg.layers.indexOf idx1) 0 = 0 then 1
    else cfg.dilated_rates.getD (cfg.layers.indexOf idx1) 0
  else 1

/-- The topology `UNet.init` produces whenever both dilation configs are
present and resolve without raising at every stage. -/
def assembled (cfg : ArchitectureConfig) (w : WeightBank) (ec dc : DilationConfig) : UNet :=
  { n_layers := cfg.n_layers
    channels_interval := cfg.channels_interval
    encoder := (List.range cfg.n_layers).map
      (fun i => mkEncoderLayer cfg w i (resolvedRate ec (i + 1)))
    middle := mkMiddle cfg w
    decoder := (List.range cfg.n_layers).map
      (fun i => mkDecoderLayer cfg w i (resolvedRate dc (i + 1)))
    out := mkOut cfg w }

/-- A well-formed `DilationConfig` per the data model: parallel lists of equal
length, distinct 1-based indices inside `[1, n_layers]`, positive rates. -/
def wfDilation (cfg : DilationConfig) (n : Nat) : Prop :=
  cfg.layers.length = cfg.dilated_rates.length ∧ cfg.layers.Nodup ∧
    (∀ l ∈ cfg.layers, 1 ≤ l ∧ l ≤ n) ∧ (∀ r ∈ cfg.dilated_rates, 0 < r)

/-- Hyper-parameters under which every convolution of the network is exactly
length-preserving: positive sizes, both dilation configs present and
well-formed, and every stage's effective kernel extent
`dilation * (kernel_size - 1)` even (e.g. odd kernel sizes). -/
def goodConfig (cfg : ArchitectureConfig) : Prop :=
  0 < cfg.n_layers ∧ 0 < cfg.channels_interval ∧
  0 < cfg.kernel_size_in_encoder ∧ 0 < cfg.kernel_size_in_decoder ∧
  ∃ ec dc, cfg.dilation_in_encoder = some ec ∧ cfg.dilation_in_decoder = some dc ∧
    wfDilation ec cfg.n_layers ∧ wfDilation dc cfg.n_layers ∧
    (∀ i < cfg.n_layers, 2 ∣ resolvedRate ec (i + 1) * (cfg.kernel_size_in_encoder - 1)) ∧
    (∀ i < cfg.n_layers, 2 ∣ resolvedRate dc (i + 1) * (cfg.kernel_size_in_decoder - 1))

/-- A `ConvBlock` whose convolution is stride-1 with exact same-length
padding and whose batch norm matches the convolution width. -/
def ConvBlock.good (l : ConvBlock) : Prop :=
  l.conv.stride = 1 ∧ 0 < l.conv.kernel_size ∧
  2 ∣ l.conv.dilation * (l.conv.kernel_size - 1) ∧
  l.conv.padding = l.conv.dilation * (l.conv.kernel_size - 1) / 2 ∧
  l.bn.num_features = l.conv.channel_out

/-- Iterated ceiling halving: the sequence-length evolution across encoder
stages. -/
def ceilHalfIter : Nat → Nat → Nat
  | 0, t => t
  | k + 1, t => ceilHalfIter k ((t + 1) / 2)

/-- An all-zero tensor of the given shape. -/
def zeros (b c l : Nat) : Tensor ℚ := ⟨b, c, l, fun _ _ _ => 0⟩

/-- Placeholder used as the `getD` default for tensor lists. -/
def dummyT : Tensor ℚ := zeros 0 0 0

/-- Zero-initialized convolution parameters (the claims are weight-independent). -/
def zeroConvW : ConvWeights := ⟨fun _ _ _ => 0, fun _ => 0⟩

/-- Zero-initialized batch-norm parameters. -/
def zeroBNW : BNWeights := ⟨fun _ => 0, fun _ => 0⟩

/-- A concrete weight oracle. -/
def bank0 : WeightBank :=
  ⟨fun _ => zeroConvW, fun _ => zeroBNW, fun _ => zeroConvW, fun _ => zeroBNW,
    zeroConvW, zeroBNW, zeroConvW⟩

/-- The well-formed empty dilation config (no stage dilated). -/
def emptyDil : DilationConfig := ⟨[], []⟩

/-- The spec's concrete scenario: `n_layers=2, channels_interval=4`, kernels
15/5, no dilated stages. -/
def cfgA : ArchitectureConfig :=
  { n_layers := 2, channels_interval := 4, kernel_size_in_encoder := 15,
    kernel_size_in_decoder := 5, dilation_in_encoder := some emptyDil,
    dilation_in_decoder := some emptyDil }

/-- A tiny valid configuration (kernel size 1 everywhere) for witnesses. -/
def cfgTiny : ArchitectureConfig :=
  { n_layers := 1, channels_interval := 1, kernel_size_in_encoder := 1,
    kernel_size_in_decoder := 1, dilation_in_encoder := some emptyDil,
    dilation_in_decoder := some emptyDil }

/-- A configuration that is valid in the claimed sense but has an even encoder
kernel size. -/
def cfgEvenKernel : ArchitectureConfig :=
  { n_layers := 1, channels_interval := 1, kernel_size_in_encoder := 2,
    kernel_size_in_decoder := 5, dilation_in_encoder := some emptyDil,
    dilation_in_decoder := some emptyDil }

/-- `cfgA` with both dilation configs absent (`None`), the source default. -/
def cfgNoDil : ArchitectureConfig :=
  { n_layers := 2, channels_interval := 4, kernel_size_in_encoder := 15,
    kernel_size_in_decoder := 5, dilation_in_encoder := none, dilation_in_decoder := none }

/-- `cfgA` with the spec's length-mismatched dilation config
`layers [1,2], dilated_rates [3]`. -/
def cfgBadLen : ArchitectureConfig :=
  { cfgA with dilation_in_encoder := some ⟨[1, 2], [3]⟩ }

/-- `cfgA` with a malformed dilation config whose single layer index 3 is
outside `[1, 2]`. -/
def cfgOutOfRange : ArchitectureConfig :=
  { cfgA with dilation_in_encoder := some ⟨[3], [7]⟩ }

/-- The spec's dilation-resolver scenario `layers [2], dilated_rates [3]`. -/
def dil23 : DilationConfig := ⟨[2], [3]⟩

/-- A malformed config with a duplicate layer index and surplus rates. -/
def dupDil : DilationConfig := ⟨[1, 1], [3, 5, 9]⟩

/-- `cfgA` with a duplicate-index, surplus-rate encoder config and an
out-of-range decoder config — malformed in three of the claimed ways. -/
def cfgDup : ArchitectureConfig :=
  { cfgA with dilation_in_encoder := some dupDil, dilation_in_decoder := some ⟨[3], [7]⟩ }

/-- A minimal standalone topology (empty stacks) for weight-independent
witnesses of forward-pass properties. -/
def uTriv : UNet :=
  { n_layers := 0
    channels_interval := 1
    encoder := []
    middle :=
      { conv := { channel_in := 1, channel_out := 1, kernel_size := 15, stride := 1,
                  padding := 7, dilation := 1, weight := fun _ _ _ => 0, bias := fun _ => 0 }
        bn := { num_features := 1, scale := fun _ => 0, shift := fun _ => 0 } }
    decoder := []
    out := { channel_in := 2, channel_out := 1, kernel_size := 1, stride := 1,
             padding := 0, dilation := 1, weight := fun _ _ _ => 0, bias := fun _ => 0 } }

/-- A one-buffer store holding a `[1,1,1]` zero tensor. -/
def store0 : Store := ⟨1, fun _ => zeros 1 1 1⟩

/-!
## Basic lemmas about the tensor primitives
-/

theorem same_padding_stride_one (l k d : Nat) (hl : 1 ≤ l) :
    calculate_same_padding l k 1 d = d * (k - 1) / 2 := by
  unfold calculate_same_padding
  congr 1
  omega

theorem exbind_ok {α β : Type} (a : α) (f : α → Except String β) :
    (Except.ok a >>= f) = f a := rfl

theorem exbind_err {α β : Type} (e : String) (f : α → Except String β) :
    ((Except.error e : Except String α) >>= f) = Except.error e := rfl

theorem conv1d_ok (p : Conv1dParams) (x : Tensor ℚ)
    (hs : p.stride = 1) (hk : 0 < p.kernel_size)
    (he : 2 ∣ p.dilation * (p.kernel_size - 1))
    (hp : p.padding = p.dilation * (p.kernel_size - 1) / 2)
    (hc : x.channels = p.channel_in) (hl : 0 < x.length) :
    ∃ y, conv1d p x = .ok y ∧ y.batch = x.batch ∧ y.channels = p.channel_out ∧
      y.length = x.length := by
  obtain ⟨q, hq⟩ := he
  unfold conv1d
  rw [if_neg hk.ne', if_neg (by omega), if_neg (by simpa using hc), if_neg (by omega)]
  refine ⟨_, rfl, rfl, rfl, ?_⟩
  show (x.length + 2 * p.padding - (p.dilation * (p.kernel_size - 1) + 1)) / p.stride + 1
    = x.length
  rw [hs, Nat.div_one]
  omega

theorem conv1d_ok_inv (p : Conv1dParams) (x y : Tensor ℚ)
    (hres : conv1d p x = .ok y)
    (hs : p.stride = 1)
    (he : 2 ∣ p.dilation * (p.kernel_size - 1))
    (hp : p.padding = p.dilation * (p.kernel_size - 1) / 2) :
    y.length = x.length ∧ 1 ≤ x.length ∧ y.batch = x.batch ∧
      y.channels = p.channel_out := by
  obtain ⟨q, hq⟩ := he
  unfold conv1d at hres
  split_ifs at hres with h1 h2 h3 h4 <;> cases hres
  refine ⟨?_, by omega, rfl, rfl⟩
  show (x.length + 2 * p.padding - (p.dilation * (p.kernel_size - 1) + 1)) / p.stride + 1
    = x.length
  rw [hs, Nat.div_one]
  omega

theorem batchNorm1d_ok (bn : BatchNorm1dParams) (x : Tensor ℚ)
    (h : x.channels = bn.num_features) :
    ∃ y, batchNorm1d bn x = .ok y ∧ y.batch = x.batch ∧ y.channels = x.channels ∧
      y.length = x.length := by
  unfold batchNorm1d
  rw [if_neg (by simpa using h)]
  exact ⟨_, rfl, rfl, rfl, rfl⟩

theorem batchNorm1d_ok_inv (bn : BatchNorm1dParams) (x y : Tensor ℚ)
    (hres : batchNorm1d bn x = .ok y) :
    y.batch = x.batch ∧ y.channels = x.channels ∧ y.length = x.length := by
  unfold batchNorm1d at hres
  split_ifs at hres <;> cases hres
  exact ⟨rfl, rfl, rfl⟩

theorem leakyReLU_shape (s : ℚ) (x : Tensor ℚ) :
    (leakyReLU s x).batch = x.batch ∧ (leakyReLU s x).channels = x.channels ∧
      (leakyReLU s x).length = x.length :=
  ⟨rfl, rfl, rfl⟩

theorem decimate_length (x : Tensor ℚ) : (decimate x).length = (x.length + 1) / 2 := rfl

theorem interpolate2_shape (x : Tensor ℚ) :
    (interpolate2 x).batch = x.batch ∧ (interpolate2 x).channels = x.channels ∧
      (interpolate2 x).length = 2 * x.length :=
  ⟨rfl, rfl, rfl⟩

theorem cat2_ok (a b : Tensor ℚ) (hb : a.batch = b.batch) (hl : a.length = b.length) :
    ∃ c, cat2 a b = .ok c ∧ c.batch = a.batch ∧ c.channels = a.channels + b.channels ∧
      c.length = a.length := by
  unfold cat2
  rw [if_pos ⟨hb, hl⟩]
  exact ⟨_, rfl, rfl, rfl, rfl⟩

theorem cat2_ok_inv (a b c : Tensor ℚ) (hres : cat2 a b = .ok c) :
    a.batch = b.batch ∧ a.length = b.length ∧ c.batch = a.batch ∧
      c.channels = a.channels + b.channels ∧ c.length = a.length := by
  unfold cat2 at hres
  split_ifs at hres with h <;> cases hres
  exact ⟨h.1, h.2, rfl, rfl, rfl⟩

theorem encIn_getD (n ci i : Nat) (h : i < n) :
    (encoder_in_channels_list n ci).getD i 0 = if i = 0 then 1 else i * ci := by
  cases i with
  | zero => rfl
  | succ i =>
      rw [if_neg (Nat.succ_ne_zero i)]
      unfold encoder_in_channels_list
      rw [List.getD_cons_succ]
      have hlen : i < ((List.range' 1 (n - 1)).map (fun j => j * ci)).length := by
        simp only [List.length_map, List.length_range']
        omega
      rw [List.getD_eq_getElem _ _ hlen, List.getElem_map, List.getElem_range'_1,
        Nat.add_comm 1 i]

theorem encOut_getD (n ci i : Nat) (h : i < n) :
    (encoder_out_channels_list n ci).getD i 0 = (i + 1) * ci := by
  unfold encoder_out_channels_list
  have hlen : i < ((List.range' 1 n).map (fun j => j * ci)).length := by
    simp only [List.length_map, List.length_range']
    omega
  rw [List.getD_eq_getElem _ _ hlen, List.getElem_map, List.getElem_range'_1,
    Nat.add_comm 1 i]

theorem encOut_length (n ci : Nat) : (encoder_out_channels_list n ci).length = n := by
  simp [encoder_out_channels_list]

theorem decOut_getD (n ci i : Nat) (h : i < n) :
    (decoder_out_channels_list n ci).getD i 0 = (n - i) * ci := by
  unfold decoder_out_channels_list encoder_out_channels_list
  have hlen : i < (((List.range' 1 n).map (fun j => j * ci)).reverse).length := by
    simp only [List.length_reverse, List.length_map, List.length_range']
    omega
  rw [List.getD_eq_getElem _ _ hlen, List.getElem_reverse, List.getElem_map,
    List.getElem_range'_1]
  have : 1 + (((List.range' 1 n).map (fun j => j * ci)).length - 1 - i) = n - i := by
    simp only [List.length_map, List.length_range']
    omega
  rw [this]

theorem decIn_getD (n ci i : Nat) (h : i < n) :
    (decoder_in_channels_list n ci).getD i 0 =
      if i = 0 then 2 * n * ci else (2 * (n - i) + 1) * ci := by
  unfold decoder_in_channels_list
  rw [List.reverse_append]
  show ((2 * n * ci) :: ((List.range' 1 (n - 1)).map fun j => (2 * j + 1) * ci).reverse).getD
    i 0 = _
  cases i with
  | zero => rw [List.getD_cons_zero, if_pos rfl]
  | succ i =>
      rw [if_neg (Nat.succ_ne_zero i), List.getD_cons_succ]
      have hlen : i < (((List.range' 1 (n - 1)).map fun j => (2 * j + 1) * ci).reverse).length := by
        simp only [List.length_reverse, List.length_map, List.length_range']
        omega
      rw [List.getD_eq_getElem _ _ hlen, List.getElem_reverse, List.getElem_map,
        List.getElem_range'_1]
      have : 2 * (1 + (((List.range' 1 (n - 1)).map fun j => (2 * j + 1) * ci).length - 1 - i))
          + 1 = 2 * (n - (i + 1)) + 1 := by
        simp only [List.length_map, List.length_range']
        omega
      rw [this]

theorem resolveDilation_eq_of_len (cfg : DilationConfig)
    (hlen : cfg.layers.length = cfg.dilated_rates.length) (idx1 : Nat) :
    resolveDilation (some cfg) idx1 = .ok (resolvedRate cfg idx1) := by
  simp only [resolveDilation]
  unfold resolvedRate
  by_cases hmem : idx1 ∈ cfg.layers
  · rw [if_pos hmem, if_pos hmem]
    have hidx : cfg.layers.indexOf idx1 < cfg.dilated_rates.length := by
      rw [← hlen]
      exact List.indexOf_lt_length.mpr hmem
    have hsome : cfg.dilated_rates.get? (cfg.layers.indexOf idx1) =
        some (cfg.dilated_rates.getD (cfg.layers.indexOf idx1) 0) := by
      rw [List.getD_eq_getElem _ _ hidx, List.get?_eq_getElem?, List.getElem?_eq_getElem hidx]
    rw [hsome]
  · rw [if_neg hmem, if_neg hmem]

theorem buildLayers_ok (build : Nat → Except String ConvBlock) (g : Nat → ConvBlock)
    (l : List Nat) (h : ∀ i ∈ l, build i = .ok (g i)) :
    buildLayers build l = .ok (l.map g) := by
  induction l with
  | nil => rfl
  | cons a as ih =>
      unfold buildLayers
      rw [h a (List.mem_cons_self a as), exbind_ok,
        ih (fun i hi => h i (List.mem_cons_of_mem a hi)), exbind_ok]
      rfl

theorem init_ok (cfg : ArchitectureConfig) (w : WeightBank) (ec dc : DilationConfig)
    (hec : cfg.dilation_in_encoder = some ec) (hdc : cfg.dilation_in_decoder = some dc)
    (hlenE : ec.layers.length = ec.dilated_rates.length)
    (hlenD : dc.layers.length = dc.dilated_rates.length) :
    UNet.init cfg w = .ok (assembled cfg w ec dc) := by
  unfold UNet.init assembled
  rw [buildLayers_ok _ (fun i => mkEncoderLayer cfg w i (resolvedRate ec (i + 1))) _
      (fun i _ => by rw [hec, resolveDilation_eq_of_len ec hlenE, exbind_ok]; rfl),
    exbind_ok,
    buildLayers_ok _ (fun i => mkDecoderLayer cfg w i (resolvedRate dc (i + 1))) _
      (fun i _ => by rw [hdc, resolveDilation_eq_of_len dc hlenD, exbind_ok]; rfl),
    exbind_ok]
  rfl

theorem ceilHalfIter_pos (len t : Nat) (h : 0 < t) : 0 < ceilHalfIter len t := by
  induction len generalizing t with
  | zero => exact h
  | succ k ih => exact ih _ (by omega)

theorem ceilHalfIter_mul_pow (q j len : Nat) (hle : j ≤ len) :
    ceilHalfIter j (q * 2 ^ len) = q * 2 ^ (len - j) := by
  induction j generalizing len with
  | zero => simp [ceilHalfIter]
  | succ k ih =>
      have heven : q * 2 ^ len = 2 * (q * 2 ^ (len - 1)) := by
        conv_lhs => rw [show len = (len - 1) + 1 by omega]
        rw [pow_succ]
        ring
      show ceilHalfIter k ((q * 2 ^ len + 1) / 2) = _
      rw [heven, show (2 * (q * 2 ^ (len - 1)) + 1) / 2 = q * 2 ^ (len - 1) by omega,
        ih (len - 1) (by omega), show len - 1 - k = len - (k + 1) by omega]

theorem ConvBlock.apply_ok (l : ConvBlock) (x : Tensor ℚ)
    (hg : l.good) (hc : x.channels = l.conv.channel_in) (hl : 0 < x.length) :
    ∃ y, l.apply x = .ok y ∧ y.batch = x.batch ∧ y.channels = l.conv.channel_out ∧
      y.length = x.length := by
  obtain ⟨hs, hk, he, hp, hbn⟩ := hg
  obtain ⟨y, hy, hyb, hyc, hyl⟩ := conv1d_ok l.conv x hs hk he hp hc hl
  obtain ⟨z, hz, hzb, hzc, hzl⟩ := batchNorm1d_ok l.bn y (by rw [hyc, hbn])
  refine ⟨leakyReLU (1 / 10) z, ?_, ?_, ?_, ?_⟩
  · unfold ConvBlock.apply
    rw [hy, exbind_ok, hz, exbind_ok]
    rfl
  · exact hzb.trans hyb
  · exact hzc.trans hyc
  · exact hzl.trans hyl

theorem ConvBlock.apply_ok_inv (l : ConvBlock) (x y : Tensor ℚ)
    (hres : l.apply x = .ok y) (hg : l.good) :
    y.length = x.length ∧ 1 ≤ x.length ∧ y.batch = x.batch ∧
      y.channels = l.conv.channel_out := by
  obtain ⟨hs, hk, he, hp, hbn⟩ := hg
  unfold ConvBlock.apply at hres
  cases hconv : conv1d l.conv x with
  | error e => rw [hconv, exbind_err] at hres; cases hres
  | ok v =>
      rw [hconv, exbind_ok] at hres
      cases hbn2 : batchNorm1d l.bn v with
      | error e => rw [hbn2, exbind_err] at hres; cases hres
      | ok z =>
          rw [hbn2, exbind_ok] at hres
          obtain ⟨h1, h2, h3, h4⟩ := conv1d_ok_inv l.conv x v hconv hs he hp
          obtain ⟨h5, h6, h7⟩ := batchNorm1d_ok_inv l.bn v z hbn2
          cases hres
          exact ⟨h7.trans h1, h2, h5.trans h3, h6.trans h4⟩

theorem encLoop_spec (g : Nat → ConvBlock) (chanIn chanOut : Nat → Nat) (N : Nat)
    (hgood : ∀ i, i < N → (g i).good)
    (hin : ∀ i, i < N → (g i).conv.channel_in = chanIn i)
    (hout : ∀ i, i < N → (g i).conv.channel_out = chanOut i)
    (hchain : ∀ i, chanIn (i + 1) = chanOut i) :
    ∀ (len s : Nat), s + len ≤ N → ∀ (x : Tensor ℚ), x.channels = chanIn s → 0 < x.length →
    ∃ o tmps, encLoop ((List.range' s len).map g) x = .ok (o, tmps) ∧
      o.batch = x.batch ∧ o.channels = chanIn (s + len) ∧
      o.length = ceilHalfIter len x.length ∧ tmps.length = len ∧
      (∀ j, j < len → (tmps.getD j dummyT).batch = x.batch ∧
        (tmps.getD j dummyT).channels = chanOut (s + j) ∧
        (tmps.getD j dummyT).length = ceilHalfIter j x.length) := by
  intro len
  induction len with
  | zero =>
      intro s hs x hc hl
      exact ⟨x, [], rfl, rfl, by rw [Nat.add_zero]; exact hc, rfl, rfl,
        fun j hj => absurd hj (by omega)⟩
  | succ k ih =>
      intro s hs x hc hl
      obtain ⟨y, hy, hyb, hyc, hyl⟩ := ConvBlock.apply_ok (g s) x (hgood s (by omega))
        (by rw [hc, hin s (by omega)]) hl
      have hdl : (decimate y).length = (x.length + 1) / 2 := by
        show (y.length + 1) / 2 = _
        rw [hyl]
      have hdc : (decimate y).channels = chanIn (s + 1) := by
        show y.channels = _
        rw [hyc, hout s (by omega), hchain s]
      obtain ⟨o, tmps, henc, hob, hoc, hol, htl, htf⟩ := ih (s + 1) (by omega) (decimate y)
        hdc (by rw [hdl]; omega)
      refine ⟨o, y :: tmps, ?_, ?_, ?_, ?_, ?_, ?_⟩
      · rw [List.range'_succ s k 1, List.map_cons]
        unfold encLoop
        rw [hy, exbind_ok, henc, exbind_ok]
        rfl
      · exact hob.trans hyb
      · rwa [show s + 1 + k = s + (k + 1) by omega] at hoc
      · show o.length = ceilHalfIter k ((x.length + 1) / 2)
        rw [hol, hdl]
      · simp [htl]
      · intro j hj
        cases j with
        | zero =>
            refine ⟨?_, ?_, ?_⟩
            · rw [List.getD_cons_zero]
              exact hyb
            · rw [List.getD_cons_zero, Nat.add_zero, hyc, hout s (by omega)]
            · rw [List.getD_cons_zero]
              exact hyl
        | succ j =>
            obtain ⟨hb2, hc2, hl2⟩ := htf j (by omega)
            refine ⟨?_, ?_, ?_⟩
            · rw [List.getD_cons_succ]
              exact hb2.trans hyb
            · rw [List.getD_cons_succ, show s + (j + 1) = s + 1 + j by omega]
              exact hc2
            · rw [List.getD_cons_succ]
              show (tmps.getD j dummyT).length = ceilHalfIter j ((x.length + 1) / 2)
              rw [hl2, hdl]

theorem decLoop_spec (g : Nat → ConvBlock) (dIn dOut mChan skipChan : Nat → Nat)
    (N q b : Nat) (hq : 0 < q)
    (hgood : ∀ i, i < N → (g i).good)
    (hin : ∀ i, i < N → (g i).conv.channel_in = dIn i)
    (hout : ∀ i, i < N → (g i).conv.channel_out = dOut i)
    (hcat : ∀ i, i < N → mChan i + skipChan i = dIn i)
    (hnext : ∀ i, i < N → mChan (i + 1) = dOut i) :
    ∀ (len s : Nat), s + len = N → ∀ (skips : List (Tensor ℚ)) (m : Tensor ℚ),
      skips.length = len →
      (∀ j, j < len → (skips.getD j dummyT).batch = b ∧
        (skips.getD j dummyT).channels = skipChan (s + j) ∧
        (skips.getD j dummyT).length = q * 2 ^ (s + j + 1)) →
      m.batch = b → m.channels = mChan s → m.length = q * 2 ^ s →
      ∃ r, decLoop ((List.range' s len).map g) skips m = .ok r ∧
        r.batch = b ∧ r.channels = mChan N ∧ r.length = q * 2 ^ N := by
  intro len
  induction len with
  | zero =>
      intro s hs skips m _ _ hmb hmc hml
      refine ⟨m, rfl, hmb, ?_, ?_⟩
      · rw [show N = s by omega]
        exact hmc
      · rw [show N = s by omega]
        exact hml
  | succ k ih =>
      intro s hs skips m hsl hsf hmb hmc hml
      cases skips with
      | nil => exact absurd hsl (by simp)
      | cons s0 rest =>
          obtain ⟨hs0b, hs0c, hs0l⟩ := hsf 0 (by omega)
          rw [List.getD_cons_zero] at hs0b hs0c hs0l
          have hil : (interpolate2 m).length = q * 2 ^ (s + 1) := by
            show 2 * m.length = _
            rw [hml, pow_succ]
            ring
          obtain ⟨c, hcok, hcb, hcc, hcl⟩ := cat2_ok (interpolate2 m) s0
            (by exact hmb.trans hs0b.symm)
            (by rw [hil, hs0l])
          have hcc2 : c.channels = dIn s := by
            rw [hcc]
            show m.channels + s0.channels = _
            rw [hmc, hs0c]
            exact hcat s (by omega)
          obtain ⟨y, hyok, hyb, hyc, hyl⟩ := ConvBlock.apply_ok (g s) c (hgood s (by omega))
            (by rw [hcc2, hin s (by omega)]) (by rw [hcl, hil]; positivity)
          obtain ⟨r, hrok, hrb, hrc, hrl⟩ := ih (s + 1) (by omega) rest y (by simpa using hsl)
            (by
              intro j hj
              obtain ⟨h1, h2, h3⟩ := hsf (j + 1) (by omega)
              rw [List.getD_cons_succ] at h1 h2 h3
              exact ⟨h1, by rwa [show s + (j + 1) = s + 1 + j by omega] at h2,
                by rwa [show s + (j + 1) + 1 = s + 1 + j + 1 by omega] at h3⟩)
            (hyb.trans (hcb.trans (by show m.batch = b; exact hmb)))
            (by rw [hyc, hout s (by omega)]; exact (hnext s (by omega)).symm)
            (by rw [hyl, hcl, hil])
          refine ⟨r, ?_, hrb, hrc, hrl⟩
          rw [List.range'_succ s k 1, List.map_cons]
          show (do
            let c ← cat2 (interpolate2 m) s0
            let y ← (g s).apply c
            decLoop ((List.range' (s + 1) k).map g) rest y) = .ok r
          rw [hcok, exbind_ok, hyok, exbind_ok, hrok]

theorem mkEncoderLayer_good (cfg : ArchitectureConfig) (w : WeightBank) (i d : Nat)
    (hi : i < cfg.n_layers) (hci : 0 < cfg.channels_interval)
    (hk : 0 < cfg.kernel_size_in_encoder)
    (hev : 2 ∣ d * (cfg.kernel_size_in_encoder - 1)) :
    (mkEncoderLayer cfg w i d).good := by
  refine ⟨rfl, hk, hev, ?_, rfl⟩
  show calculate_same_padding (encoderPadLIn cfg.n_layers cfg.channels_interval i)
    cfg.kernel_size_in_encoder 1 d = _
  apply same_padding_stride_one
  unfold encoderPadLIn
  rw [encIn_getD _ _ _ hi]
  split_ifs with h
  · omega
  · exact Nat.one_le_iff_ne_zero.mpr (by positivity)

theorem mkDecoderLayer_good (cfg : ArchitectureConfig) (w : WeightBank) (i d : Nat)
    (hi : i < cfg.n_layers) (hci : 0 < cfg.channels_interval)
    (hk : 0 < cfg.kernel_size_in_decoder)
    (hev : 2 ∣ d * (cfg.kernel_size_in_decoder - 1)) :
    (mkDecoderLayer cfg w i d).good := by
  refine ⟨rfl, hk, hev, ?_, rfl⟩
  show calculate_same_padding (decoderPadLIn cfg.n_layers cfg.channels_interval i)
    cfg.kernel_size_in_decoder 1 d = _
  apply same_padding_stride_one
  unfold decoderPadLIn
  rw [encIn_getD _ _ _ hi]
  split_ifs with h
  · omega
  · exact Nat.one_le_iff_ne_zero.mpr (by positivity)

theorem mkMiddle_good (cfg : ArchitectureConfig) (w : WeightBank) : (mkMiddle cfg w).good := by
  refine ⟨rfl, ?_, ?_, ?_, rfl⟩
  · show (0 : Nat) < 15
    decide
  · show 2 ∣ 1 * (15 - 1)
    decide
  · show 7 = 1 * (15 - 1) / 2
    decide

theorem encStack_spec (cfg : ArchitectureConfig) (w : WeightBank) (ec : DilationConfig)
    (hci : 0 < cfg.channels_interval) (hk : 0 < cfg.kernel_size_in_encoder)
    (hev : ∀ i, i < cfg.n_layers →
      2 ∣ resolvedRate ec (i + 1) * (cfg.kernel_size_in_encoder - 1))
    (ipt : Tensor ℚ) (hc : ipt.channels = 1) (hl : 0 < ipt.length) :
    ∃ o tmps,
      encLoop ((List.range cfg.n_layers).map
        (fun i => mkEncoderLayer cfg w i (resolvedRate ec (i + 1)))) ipt = .ok (o, tmps) ∧
      o.batch = ipt.batch ∧
      (0 < cfg.n_layers → o.channels = cfg.n_layers * cfg.channels_interval) ∧
      o.length = ceilHalfIter cfg.n_layers ipt.length ∧
      tmps.length = cfg.n_layers ∧
      (∀ j, j < cfg.n_layers → (tmps.getD j dummyT).batch = ipt.batch ∧
        (tmps.getD j dummyT).channels = (j + 1) * cfg.channels_interval ∧
        (tmps.getD j dummyT).length = ceilHalfIter j ipt.length) := by
  have hspec := encLoop_spec (fun i => mkEncoderLayer cfg w i (resolvedRate ec (i + 1)))
    (fun i => if i = 0 then 1 else i * cfg.channels_interval)
    (fun i => (i + 1) * cfg.channels_interval) cfg.n_layers
    (fun i hi => mkEncoderLayer_good cfg w i _ hi hci hk (hev i hi))
    (fun i hi => by
      show (encoder_in_channels_list cfg.n_layers cfg.channels_interval).getD i 0 = _
      exact encIn_getD _ _ _ hi)
    (fun i hi => by
      show (encoder_out_channels_list cfg.n_layers cfg.channels_interval).getD i 0 = _
      exact encOut_getD _ _ _ hi)
    (fun i => by simp)
    cfg.n_layers 0 (by omega) ipt (by simpa using hc) hl
  rw [← List.range_eq_range'] at hspec
  obtain ⟨o, tmps, h1, h2, h3, h4, h5, h6⟩ := hspec
  have h3b : o.channels = if cfg.n_layers = 0 then 1 else
      cfg.n_layers * cfg.channels_interval := by simpa using h3
  refine ⟨o, tmps, h1, h2, ?_, by simpa using h4, h5, fun j hj => by simpa using h6 j hj⟩
  intro hn
  rw [h3b, if_neg (by omega)]

theorem getD_reverse (xs : List (Tensor ℚ)) (i : Nat) (h : i < xs.length) (d : Tensor ℚ) :
    xs.reverse.getD i d = xs.getD (xs.length - 1 - i) d := by
  have h1 : i < xs.reverse.length := by simpa using h
  rw [List.getD_eq_getElem _ _ h1, List.getD_eq_getElem _ _ (by omega),
    List.getElem_reverse]

theorem decLoop_ok_chain : ∀ (ws : List ConvBlock), (∀ l ∈ ws, l.good) →
    ∀ (skips : List (Tensor ℚ)) (m r : Tensor ℚ), decLoop ws skips m = .ok r →
    ∀ j, j < ws.length → (skips.getD j dummyT).length = 2 ^ (j + 1) * m.length := by
  intro ws
  induction ws with
  | nil => intro _ skips m r _ j hj; exact absurd hj (by simp)
  | cons l ls ih =>
      intro hgood skips m r hres j hj
      cases skips with
      | nil =>
          rw [show decLoop (l :: ls) [] m =
            .error "IndexError: list index out of range" from rfl] at hres
          cases hres
      | cons s0 ss =>
          have hres2 : (do
              let c ← cat2 (interpolate2 m) s0
              let y ← l.apply c
              decLoop ls ss y) = .ok r := hres
          cases hcat : cat2 (interpolate2 m) s0 with
          | error e => rw [hcat, exbind_err] at hres2; cases hres2
          | ok c =>
              rw [hcat, exbind_ok] at hres2
              cases happ : l.apply c with
              | error e => rw [happ, exbind_err] at hres2; cases hres2
              | ok y =>
                  rw [happ, exbind_ok] at hres2
                  obtain ⟨_, hal, _, _, hcl⟩ := cat2_ok_inv _ _ _ hcat
                  obtain ⟨hylen, _, _, _⟩ := ConvBlock.apply_ok_inv l c y happ
                    (hgood l (List.mem_cons_self l ls))
                  cases j with
                  | zero =>
                      rw [List.getD_cons_zero, ← hal]
                      show 2 * m.length = 2 ^ (0 + 1) * m.length
                      norm_num
                  | succ j =>
                      rw [List.getD_cons_succ]
                      have hrec := ih (fun a ha => hgood a (List.mem_cons_of_mem l ha))
                        ss y r hres2 j (by simpa using hj)
                      rw [hrec, hylen, hcl]
                      show 2 ^ (j + 1) * (2 * m.length) = 2 ^ (j + 1 + 1) * m.length
                      rw [pow_succ]
                      ring

theorem forwardPre_shape (cfg : ArchitectureConfig) (w : WeightBank) (hgc : goodConfig cfg)
    (u : UNet) (hu : UNet.init cfg w = .ok u)
    (ipt : Tensor ℚ) (q : Nat) (hq : 0 < q)
    (hc : ipt.channels = 1) (hl : ipt.length = q * 2 ^ cfg.n_layers) :
    ∃ r, forwardPre u ipt = .ok r ∧ r.batch = ipt.batch ∧ r.channels = 1 ∧
      r.length = ipt.length := by
  obtain ⟨hn, hci, hke, hkd, ec, dc, hec, hdc, hwfE, hwfD, hevE, hevD⟩ := hgc
  have hu2 : u = assembled cfg w ec dc := by
    have h0 := init_ok cfg w ec dc hec hdc hwfE.1 hwfD.1
    rw [hu] at h0
    exact Except.ok.inj h0
  subst hu2
  have hlpos : 0 < ipt.length := by rw [hl]; positivity
  obtain ⟨o, tmps, heo, hob, hocn, hol, htl, htf⟩ :=
    encStack_spec cfg w ec hci hke hevE ipt hc hlpos
  have hoc : o.channels = cfg.n_layers * cfg.channels_interval := hocn hn
  have holq : o.length = q := by
    rw [hol, hl, ceilHalfIter_mul_pow q cfg.n_layers cfg.n_layers le_rfl]
    simp
  obtain ⟨m, hmok, hmb, hmc, hml⟩ := ConvBlock.apply_ok (mkMiddle cfg w) o
    (mkMiddle_good cfg w) (by rw [hoc]; rfl) (by rw [holq]; exact hq)
  obtain ⟨r, hrok, hrb, hrc, hrl⟩ := decLoop_spec
    (fun i => mkDecoderLayer cfg w i (resolvedRate dc (i + 1)))
    (fun i => if i = 0 then 2 * cfg.n_layers * cfg.channels_interval
      else (2 * (cfg.n_layers - i) + 1) * cfg.channels_interval)
    (fun i => (cfg.n_layers - i) * cfg.channels_interval)
    (fun i => if i = 0 then cfg.n_layers * cfg.channels_interval
      else (cfg.n_layers - i + 1) * cfg.channels_interval)
    (fun i => (cfg.n_layers - i) * cfg.channels_interval)
    cfg.n_layers q ipt.batch hq
    (fun i hi => mkDecoderLayer_good cfg w i _ hi hci hkd (hevD i hi))
    (fun i hi => by
      show (decoder_in_channels_list cfg.n_layers cfg.channels_interval).getD i 0 = _
      exact decIn_getD _ _ _ hi)
    (fun i hi => by
      show (decoder_out_channels_list cfg.n_layers cfg.channels_interval).getD i 0 = _
      exact decOut_getD _ _ _ hi)
    (fun i hi => by
      show (if i = 0 then cfg.n_layers * cfg.channels_interval
          else (cfg.n_layers - i + 1) * cfg.channels_interval)
        + (cfg.n_layers - i) * cfg.channels_interval
        = if i = 0 then 2 * cfg.n_layers * cfg.channels_interval
          else (2 * (cfg.n_layers - i) + 1) * cfg.channels_interval
      by_cases h0 : i = 0
      · subst h0
        rw [if_pos rfl, if_pos rfl, Nat.sub_zero]
        ring
      · rw [if_neg h0, if_neg h0]
        have hsum : (cfg.n_layers - i + 1) + (cfg.n_layers - i)
            = 2 * (cfg.n_layers - i) + 1 := by omega
        rw [← Nat.add_mul, hsum])
    (fun i hi => by
      show (if i + 1 = 0 then cfg.n_layers * cfg.channels_interval
          else (cfg.n_layers - (i + 1) + 1) * cfg.channels_interval)
        = (cfg.n_layers - i) * cfg.channels_interval
      rw [if_neg (Nat.succ_ne_zero i)]
      congr 1
      omega)
    cfg.n_layers 0 (by omega) tmps.reverse m (by simpa using htl)
    (fun j hj => by
      rw [getD_reverse tmps j (by omega) dummyT, htl]
      obtain ⟨hb2, hc2, hl2⟩ := htf (cfg.n_layers - 1 - j) (by omega)
      refine ⟨hb2, ?_, ?_⟩
      · rw [hc2]
        show (cfg.n_layers - 1 - j + 1) * cfg.channels_interval
          = (cfg.n_layers - (0 + j)) * cfg.channels_interval
        rw [show cfg.n_layers - 1 - j + 1 = cfg.n_layers - (0 + j) by omega]
      · rw [hl2, hl, ceilHalfIter_mul_pow q _ _ (by omega),
          show cfg.n_layers - (cfg.n_layers - 1 - j) = 0 + j + 1 by omega])
    (hmb.trans hob)
    (by
      show m.channels = if 0 = 0 then cfg.n_layers * cfg.channels_interval
        else (cfg.n_layers - 0 + 1) * cfg.channels_interval
      rw [if_pos rfl]
      exact hmc)
    (by rw [hml, holq]; simp)
  have hrc2 : r.channels = cfg.channels_interval := by
    rw [hrc]
    show (if cfg.n_layers = 0 then cfg.n_layers * cfg.channels_interval
      else (cfg.n_layers - cfg.n_layers + 1) * cfg.channels_interval) = cfg.channels_interval
    rw [if_neg (by omega), show cfg.n_layers - cfg.n_layers + 1 = 1 by omega, one_mul]
  obtain ⟨c, hcok, hcb, hcc, hcl⟩ := cat2_ok r ipt (by rw [hrb]) (by rw [hrl, hl])
  obtain ⟨res, hreso, hresb, hresc, hresl⟩ := conv1d_ok (mkOut cfg w) c rfl
    (by show (0 : Nat) < 1; decide) (by show 2 ∣ 1 * (1 - 1); decide)
    (by show (0 : Nat) = 1 * (1 - 1) / 2; decide)
    (by rw [hcc, hrc2, hc]; show cfg.channels_interval + 1 = 1 + cfg.channels_interval; omega)
    (by rw [hcl, hrl]; positivity)
  rw [← List.range_eq_range'] at hrok
  refine ⟨res, ?_, hresb.trans (hcb.trans hrb), by rw [hresc]; rfl, ?_⟩
  · show (do
      let (o2, tmps2) ← encLoop ((List.range cfg.n_layers).map
        (fun i => mkEncoderLayer cfg w i (resolvedRate ec (i + 1)))) ipt
      let m2 ← (mkMiddle cfg w).apply o2
      let d2 ← decLoop ((List.range cfg.n_layers).map
        (fun i => mkDecoderLayer cfg w i (resolvedRate dc (i + 1)))) tmps2.reverse m2
      let c2 ← cat2 d2 ipt
      conv1d (mkOut cfg w) c2) = .ok res
    rw [heo, exbind_ok]
    show (do
      let m2 ← (mkMiddle cfg w).apply o
      let d2 ← decLoop ((List.range cfg.n_layers).map
        (fun i => mkDecoderLayer cfg w i (resolvedRate dc (i + 1)))) tmps.reverse m2
      let c2 ← cat2 d2 ipt
      conv1d (mkOut cfg w) c2) = .ok res
    rw [hmok, exbind_ok, hrok, exbind_ok, hcok, exbind_ok, hreso]
  · rw [hresl, hcl, hrl, ← hl]

theorem unet_encoder_run (cfg : ArchitectureConfig) (w : WeightBank) (hgc : goodConfig cfg)
    (u : UNet) (hu : UNet.init cfg w = .ok u) (ipt : Tensor ℚ)
    (hc : ipt.channels = 1) (hl : 0 < ipt.length) :
    ∃ o tmps, encLoop u.encoder ipt = .ok (o, tmps) ∧
      o.batch = ipt.batch ∧ o.channels = cfg.n_layers * cfg.channels_interval ∧
      o.length = ceilHalfIter cfg.n_layers ipt.length ∧ tmps.length = cfg.n_layers ∧
      (∀ j, j < cfg.n_layers → (tmps.getD j dummyT).batch = ipt.batch ∧
        (tmps.getD j dummyT).channels = (j + 1) * cfg.channels_interval ∧
        (tmps.getD j dummyT).length = ceilHalfIter j ipt.length) := by
  obtain ⟨hn, hci, hke, hkd, ec, dc, hec, hdc, hwfE, hwfD, hevE, hevD⟩ := hgc
  have hu2 : u = assembled cfg w ec dc := by
    have h0 := init_ok cfg w ec dc hec hdc hwfE.1 hwfD.1
    rw [hu] at h0
    exact Except.ok.inj h0
  subst hu2
  obtain ⟨o, tmps, heo, hob, hocn, hol, htl, htf⟩ :=
    encStack_spec cfg w ec hci hke hevE ipt hc hl
  exact ⟨o, tmps, heo, hob, hocn hn, hol, htl, htf⟩

/-- C2: for every `n_layers ≥ 1` and `channels_interval ≥ 1` the channel plan
satisfies: `encoder_in = [1, ci, 2*ci, ..., (n_layers-1)*ci]`,
`encoder_out[i] = (i+1)*ci`, `decoder_out = reverse(encoder_out)`, and
`decoder_in` (read from the bottleneck side) is `2*n_layers*ci` at the deepest
stage and `(2*(n_layers-i)+1)*ci` at every shallower stage `i`. -/
theorem claim_C2 (n ci : Nat) (hn : 0 < n) (hci : 0 < ci) :
    (encoder_in_channels_list n ci).length = n ∧
    (∀ i, i < n → (encoder_in_channels_list n ci).getD i 0 = if i = 0 then 1 else i * ci) ∧
    (encoder_out_channels_list n ci).length = n ∧
    (∀ i, i < n → (encoder_out_channels_list n ci).getD i 0 = (i + 1) * ci) ∧
    decoder_out_channels_list n ci = (encoder_out_channels_list n ci).reverse ∧
    (decoder_in_channels_list n ci).length = n ∧
    (decoder_in_channels_list n ci).getD 0 0 = 2 * n * ci ∧
    (∀ i, 1 ≤ i → i < n →
      (decoder_in_channels_list n ci).getD i 0 = (2 * (n - i) + 1) * ci) := by
  refine ⟨?_, fun i hi => encIn_getD n ci i hi, encOut_length n ci,
    fun i hi => encOut_getD n ci i hi, rfl, ?_, ?_, ?_⟩
  · show (1 :: (List.range' 1 (n - 1)).map (fun i => i * ci)).length = n
    simp only [List.length_cons, List.length_map, List.length_range']
    omega
  · simp only [decoder_in_channels_list, List.length_reverse, List.length_append,
      List.length_map, List.length_range', List.length_cons, List.length_nil]
    omega
  · rw [decIn_getD n ci 0 hn, if_pos rfl]
  · intro i h1 h2
    rw [decIn_getD n ci i h2, if_neg (by omega)]

/-- C2 witness at `n_layers = 3`, `channels_interval = 2`. -/
theorem claim_C2_witness :
    (encoder_in_channels_list 3 2).getD 2 0 = 4 ∧
    (decoder_in_channels_list 3 2).getD 0 0 = 12 ∧
    (decoder_in_channels_list 3 2).getD 2 0 = 6 := by
  obtain ⟨_, h2, _, _, _, _, h7, h8⟩ := claim_C2 3 2 (by decide) (by decide)
  refine ⟨?_, by simpa using h7, ?_⟩
  · have := h2 2 (by decide)
    simpa using this
  · have := h8 2 (by decide) (by decide)
    simpa using this

/-- C3: for a well-formed `DilationConfig` and any 1-based stage index in
`[1, n_layers]`, the resolved dilation is `dilated_rates[j]` when
`layers[j] = i`, and 1 when `i` is not listed; `resolveDilation` is the single
lookup used for both the encoder and the decoder stacks. -/
theorem claim_C3 (cfg : DilationConfig) (n : Nat) (hwf : wfDilation cfg n)
    (i : Nat) (h1 : 1 ≤ i) (h2 : i ≤ n) :
    (∀ j, (hj : j < cfg.layers.length) → cfg.layers.get ⟨j, hj⟩ = i →
      resolveDilation (some cfg) i = .ok (cfg.dilated_rates.getD j 0)) ∧
    (i ∉ cfg.layers → resolveDilation (some cfg) i = .ok 1) := by
  obtain ⟨hlen, hnodup, hrange, hpos⟩ := hwf
  constructor
  · intro j hj hget
    have hmem : i ∈ cfg.layers := hget ▸ (cfg.layers.get_mem j hj)
    rw [resolveDilation_eq_of_len cfg hlen i]
    have hidx : cfg.layers.indexOf i = j := by
      rw [← hget]
      simpa using List.indexOf_getElem hnodup j hj
    have hjr : j < cfg.dilated_rates.length := by omega
    have hr0 : cfg.dilated_rates.getD j 0 ≠ 0 := by
      have hm : cfg.dilated_rates.getD j 0 ∈ cfg.dilated_rates := by
        rw [List.getD_eq_getElem _ _ hjr]
        exact List.getElem_mem _
      exact (hpos _ hm).ne'
    unfold resolvedRate
    rw [if_pos hmem, hidx, if_neg hr0]
  · intro hmem
    rw [resolveDilation_eq_of_len cfg hlen i]
    unfold resolvedRate
    rw [if_neg hmem]

/-- C3 witness: the spec scenario `layers [2], dilated_rates [3]`, `n_layers = 3`. -/
theorem claim_C3_witness :
    resolveDilation (some dil23) 2 = .ok 3 ∧ resolveDilation (some dil23) 1 = .ok 1 := by
  have hwf : wfDilation dil23 3 := by
    refine ⟨rfl, by decide, ?_, ?_⟩ <;> decide
  constructor
  · have h := (claim_C3 dil23 3 hwf 2 (by decide) (by decide)).1 0 (by decide) rfl
    simpa using h
  · exact (claim_C3 dil23 3 hwf 1 (by decide) (by decide)).2 (by decide)

/-- C4: the claim says assembly succeeds with absent dilation configs, every
stage defaulting to dilation 1; the code instead subscripts `None` and raises
`TypeError`, so construction with the declared default arguments always
fails. -/
theorem claim_C4_codebug :
    UNet.init cfgNoDil bank0 = .error "TypeError: NoneType object is not subscriptable" := rfl

/-- C5 counterexample: the malformed config `layers [3], dilated_rates [7]`
with `n_layers = 2` (index out of `[1,2]`) is accepted silently: assembly
succeeds instead of raising a configuration error. -/
theorem claim_C5_counterexample : ∃ u, UNet.init cfgOutOfRange bank0 = .ok u := ⟨_, rfl⟩

theorem resolveDilation_ok_of (cfg : DilationConfig) (idx1 : Nat)
    (h : idx1 ∈ cfg.layers → cfg.layers.indexOf idx1 < cfg.dilated_rates.length) :
    ∃ d, resolveDilation (some cfg) idx1 = .ok d := by
  simp only [resolveDilation]
  by_cases hmem : idx1 ∈ cfg.layers
  · rw [if_pos hmem]
    have hlt := h hmem
    have hsome : cfg.dilated_rates.get? (cfg.layers.indexOf idx1) =
        some (cfg.dilated_rates.getD (cfg.layers.indexOf idx1) 0) := by
      rw [List.getD_eq_getElem _ _ hlt, List.get?_eq_getElem?, List.getElem?_eq_getElem hlt]
    rw [hsome]
    exact ⟨_, rfl⟩
  · rw [if_neg hmem]
    exact ⟨1, rfl⟩

theorem resolveDilation_error_inv (cfg : DilationConfig) (idx1 : Nat) (e : String)
    (h : resolveDilation (some cfg) idx1 = .error e) :
    idx1 ∈ cfg.layers ∧ cfg.dilated_rates.length ≤ cfg.layers.indexOf idx1 := by
  simp only [resolveDilation] at h
  by_cases hmem : idx1 ∈ cfg.layers
  · rw [if_pos hmem] at h
    refine ⟨hmem, ?_⟩
    cases hget : cfg.dilated_rates.get? (cfg.layers.indexOf idx1) with
    | none => exact List.get?_eq_none.mp hget
    | some r => rw [hget] at h; cases h
  · rw [if_neg hmem] at h
    cases h

theorem buildLayers_ok_of (build : Nat → Except String ConvBlock) (l : List Nat)
    (h : ∀ i ∈ l, ∃ b, build i = .ok b) :
    ∃ bs, buildLayers build l = .ok bs := by
  induction l with
  | nil => exact ⟨[], rfl⟩
  | cons a as ih =>
      obtain ⟨b, hb⟩ := h a (List.mem_cons_self a as)
      obtain ⟨bs, hbs⟩ := ih (fun i hi => h i (List.mem_cons_of_mem a hi))
      refine ⟨b :: bs, ?_⟩
      unfold buildLayers
      rw [hb, exbind_ok, hbs, exbind_ok]
      rfl

theorem buildLayers_error_inv (build : Nat → Except String ConvBlock) (l : List Nat)
    (e : String) (h : buildLayers build l = .error e) :
    ∃ i, i ∈ l ∧ ∃ e2, build i = .error e2 := by
  induction l with
  | nil =>
      rw [show buildLayers build [] = .ok [] from rfl] at h
      cases h
  | cons a as ih =>
      unfold buildLayers at h
      cases hb : build a with
      | error e2 => exact ⟨a, List.mem_cons_self a as, e2, hb⟩
      | ok b =>
          rw [hb, exbind_ok] at h
          cases hbs : buildLayers build as with
          | error e3 =>
              rw [hbs, exbind_err] at h
              cases h
              obtain ⟨i, hi, he2⟩ := ih hbs
              exact ⟨i, List.mem_cons_of_mem a hi, he2⟩
          | ok bs =>
              rw [hbs, exbind_ok] at h
              cases h

/-- C5 amended: with both dilation configs supplied, assembly performs no
well-formedness validation. It succeeds whenever every stage index `i+1` in
`[1, n_layers]` that occurs in a config's `layers` has its first position
within `dilated_rates` — so out-of-range indices, duplicate indices and
surplus `dilated_rates` entries alone never make it fail — and whenever it
fails, some stage index in `[1, n_layers]` occurs in `layers` with its first
position at or past the end of `dilated_rates` (a rate-lookup index error).
In particular `layers [1,2], dilated_rates [3]` with `n_layers = 2` makes
assembly fail. -/
theorem claim_C5_amended (cfg : ArchitectureConfig) (w : WeightBank) (ec dc : DilationConfig)
    (hec : cfg.dilation_in_encoder = some ec) (hdc : cfg.dilation_in_decoder = some dc) :
    ((∀ i, i < cfg.n_layers →
        ((i + 1) ∈ ec.layers → ec.layers.indexOf (i + 1) < ec.dilated_rates.length) ∧
        ((i + 1) ∈ dc.layers → dc.layers.indexOf (i + 1) < dc.dilated_rates.length)) →
      ∃ u, UNet.init cfg w = .ok u) ∧
    (∀ e, UNet.init cfg w = .error e →
      ∃ i, i < cfg.n_layers ∧
        (((i + 1) ∈ ec.layers ∧ ec.dilated_rates.length ≤ ec.layers.indexOf (i + 1)) ∨
         ((i + 1) ∈ dc.layers ∧ dc.dilated_rates.length ≤ dc.layers.indexOf (i + 1)))) ∧
    UNet.init cfgBadLen bank0 = .error "IndexError: list index out of range" := by
  refine ⟨?_, ?_, rfl⟩
  · intro hcond
    obtain ⟨bse, hbse⟩ := buildLayers_ok_of (fun i => do
        let d ← resolveDilation cfg.dilation_in_encoder (i + 1)
        pure (mkEncoderLayer cfg w i d)) (List.range cfg.n_layers) (by
      intro i hi
      obtain ⟨d, hd⟩ := resolveDilation_ok_of ec (i + 1) ((hcond i (List.mem_range.mp hi)).1)
      refine ⟨mkEncoderLayer cfg w i d, ?_⟩
      show (do
        let d2 ← resolveDilation cfg.dilation_in_encoder (i + 1)
        pure (mkEncoderLayer cfg w i d2)) = .ok (mkEncoderLayer cfg w i d)
      rw [hec, hd, exbind_ok]
      rfl)
    obtain ⟨bsd, hbsd⟩ := buildLayers_ok_of (fun i => do
        let d ← resolveDilation cfg.dilation_in_decoder (i + 1)
        pure (mkDecoderLayer cfg w i d)) (List.range cfg.n_layers) (by
      intro i hi
      obtain ⟨d, hd⟩ := resolveDilation_ok_of dc (i + 1) ((hcond i (List.mem_range.mp hi)).2)
      refine ⟨mkDecoderLayer cfg w i d, ?_⟩
      show (do
        let d2 ← resolveDilation cfg.dilation_in_decoder (i + 1)
        pure (mkDecoderLayer cfg w i d2)) = .ok (mkDecoderLayer cfg w i d)
      rw [hdc, hd, exbind_ok]
      rfl)
    refine ⟨⟨cfg.n_layers, cfg.channels_interval, bse, mkMiddle cfg w, bsd, mkOut cfg w⟩, ?_⟩
    unfold UNet.init
    rw [hbse, exbind_ok, hbsd, exbind_ok]
    rfl
  · intro e he
    unfold UNet.init at he
    cases hbe : buildLayers (fun i => do
        let d ← resolveDilation cfg.dilation_in_encoder (i + 1)
        pure (mkEncoderLayer cfg w i d)) (List.range cfg.n_layers) with
    | error e1 =>
        obtain ⟨i, hi, e2, hbuild⟩ := buildLayers_error_inv _ _ _ hbe
        have hbuild2 : (do
            let d ← resolveDilation cfg.dilation_in_encoder (i + 1)
            pure (mkEncoderLayer cfg w i d)) = .error e2 := hbuild
        have hres : resolveDilation cfg.dilation_in_encoder (i + 1) = .error e2 := by
          cases hr : resolveDilation cfg.dilation_in_encoder (i + 1) with
          | error e3 =>
              rw [hr, exbind_err] at hbuild2
              cases hbuild2
              rfl
          | ok d =>
              rw [hr, exbind_ok] at hbuild2
              cases hbuild2
        rw [hec] at hres
        obtain ⟨hmem, hlen⟩ := resolveDilation_error_inv ec (i + 1) e2 hres
        exact ⟨i, List.mem_range.mp hi, Or.inl ⟨hmem, hlen⟩⟩
    | ok bse =>
        rw [hbe, exbind_ok] at he
        cases hbd : buildLayers (fun i => do
            let d ← resolveDilation cfg.dilation_in_decoder (i + 1)
            pure (mkDecoderLayer cfg w i d)) (List.range cfg.n_layers) with
        | error e1 =>
            obtain ⟨i, hi, e2, hbuild⟩ := buildLayers_error_inv _ _ _ hbd
            have hbuild2 : (do
                let d ← resolveDilation cfg.dilation_in_decoder (i + 1)
                pure (mkDecoderLayer cfg w i d)) = .error e2 := hbuild
            have hres : resolveDilation cfg.dilation_in_decoder (i + 1) = .error e2 := by
              cases hr : resolveDilation cfg.dilation_in_decoder (i + 1) with
              | error e3 =>
                  rw [hr, exbind_err] at hbuild2
                  cases hbuild2
                  rfl
              | ok d =>
                  rw [hr, exbind_ok] at hbuild2
                  cases hbuild2
            rw [hdc] at hres
            obtain ⟨hmem, hlen⟩ := resolveDilation_error_inv dc (i + 1) e2 hres
            exact ⟨i, List.mem_range.mp hi, Or.inr ⟨hmem, hlen⟩⟩
        | ok bsd =>
            rw [hbd, exbind_ok] at he
            cases he

/-- C5 witness: a config with a duplicate index, surplus rates and an
out-of-range index assembles silently, while the spec's length-mismatch
scenario fails. -/
theorem claim_C5_witness :
    (∃ u, UNet.init cfgDup bank0 = .ok u) ∧
      UNet.init cfgBadLen bank0 = .error "IndexError: list index out of range" := by
  have h := claim_C5_amended cfgDup bank0 dupDil ⟨[3], [7]⟩ rfl rfl
  exact ⟨h.1 (by decide), h.2.2⟩

/-- C9 counterexample: with `n_layers = 2`, `channels_interval = 4` and input
length 16, encoder stage 0's pre-decimation tensor has length 16 (the length
of `tmp[0]`), yet the `l_in` passed to the padding calculator for decoder
stage 0 is `encoder_in_channels_list[0] = 1` — a channel count, not that
length. -/
theorem claim_C9_counterexample :
    ∃ u, UNet.init cfgA bank0 = .ok u ∧
      ∃ p, encLoop u.encoder (zeros 1 1 16) = .ok p ∧
        (p.2.getD 0 dummyT).length = 16 ∧
        decoderPadLIn 2 4 0 = 1 ∧ (1 : Nat) ≠ 16 := by
  refine ⟨_, rfl, _, rfl, rfl, rfl, by decide⟩

/-- C9 amended: the `l_in` argument used when building decoder stage `i` is
`encoder_in_channels_list[i]` — the same value the encoder stage `i` padding
computation uses (an input channel count, not the encoder's pre-decimation
input length) — and the constructed decoder layer's padding is computed from
it. -/
theorem claim_C9_amended (cfg : ArchitectureConfig) (w : WeightBank) (i d : Nat) :
    (mkDecoderLayer cfg w i d).conv.padding =
      calculate_same_padding (decoderPadLIn cfg.n_layers cfg.channels_interval i)
        cfg.kernel_size_in_decoder 1 d ∧
    (mkEncoderLayer cfg w i d).conv.padding =
      calculate_same_padding (encoderPadLIn cfg.n_layers cfg.channels_interval i)
        cfg.kernel_size_in_encoder 1 d ∧
    decoderPadLIn cfg.n_layers cfg.channels_interval i
      = encoderPadLIn cfg.n_layers cfg.channels_interval i ∧
    encoderPadLIn cfg.n_layers cfg.channels_interval i
      = (encoder_in_channels_list cfg.n_layers cfg.channels_interval).getD i 0 :=
  ⟨rfl, rfl, rfl, rfl⟩

/-- C6 counterexample: slicing a length-5 axis with step 2 keeps 3 samples,
not `floor(5/2) = 2`. -/
theorem claim_C6_counterexample :
    (decimate (zeros 1 1 5)).length = 3 ∧ (5 : Nat) / 2 = 2 := ⟨rfl, rfl⟩

/-- C6 amended: each decimation keeps `ceil(T/2) = (T+1)/2` samples (not
`floor(T/2)`); consequently, for a valid configuration and input length
`L = q * 2^n_layers` the tensor reaching the bottleneck has length
`L / 2^n_layers`. -/
theorem claim_C6_amended (cfg : ArchitectureConfig) (w : WeightBank) (hgc : goodConfig cfg)
    (u : UNet) (hu : UNet.init cfg w = .ok u) (ipt : Tensor ℚ) (q : Nat) (hq : 0 < q)
    (hc : ipt.channels = 1) (hl : ipt.length = q * 2 ^ cfg.n_layers) :
    (∀ x : Tensor ℚ, (decimate x).length = (x.length + 1) / 2) ∧
    ∃ o tmps, encLoop u.encoder ipt = .ok (o, tmps) ∧
      o.length = ipt.length / 2 ^ cfg.n_layers := by
  refine ⟨fun x => rfl, ?_⟩
  obtain ⟨o, tmps, heo, _, _, hol, _, _⟩ := unet_encoder_run cfg w hgc u hu ipt hc
    (by rw [hl]; positivity)
  refine ⟨o, tmps, heo, ?_⟩
  rw [hol, hl, ceilHalfIter_mul_pow q cfg.n_layers cfg.n_layers le_rfl,
    Nat.mul_div_cancel _ (by positivity)]
  simp

/-- C6 witness at the concrete scenario `n_layers = 2, channels_interval = 4`,
input `[1,1,16]`. -/
theorem claim_C6_witness :
    ∃ u, UNet.init cfgA bank0 = .ok u ∧
      ∃ o tmps, encLoop u.encoder (zeros 1 1 16) = .ok (o, tmps) ∧ o.length = 4 := by
  obtain ⟨u, hu⟩ : ∃ u, UNet.init cfgA bank0 = .ok u := ⟨_, rfl⟩
  have hgood : goodConfig cfgA := by
    refine ⟨by decide, by decide, by decide, by decide, emptyDil, emptyDil, rfl, rfl,
      ?_, ?_, by decide, by decide⟩ <;> exact ⟨rfl, by decide, by decide, by decide⟩
  obtain ⟨_, o, tmps, heo, hol⟩ := claim_C6_amended cfgA bank0 hgood u hu
    (zeros 1 1 16) 4 (by decide) rfl (by decide)
  exact ⟨u, hu, o, tmps, heo, by simpa using hol⟩

/-- C7: for any valid configuration, assembly succeeds, and on any
single-channel input whose length is not divisible by `2^n_layers` the forward
pass returns a shape error instead of an output. -/
theorem claim_C7 (cfg : ArchitectureConfig) (w : WeightBank) (hgc : goodConfig cfg) :
    (∃ u, UNet.init cfg w = .ok u) ∧
    ∀ u, UNet.init cfg w = .ok u → ∀ ipt : Tensor ℚ, ipt.channels = 1 →
      ¬ (2 ^ cfg.n_layers ∣ ipt.length) → ∃ e, forward u ipt = .error e := by
  obtain ⟨hn, hci, hke, hkd, ec, dc, hec, hdc, hwfE, hwfD, hevE, hevD⟩ := hgc
  constructor
  · exact ⟨_, init_ok cfg w ec dc hec hdc hwfE.1 hwfD.1⟩
  intro u hu ipt hc hnd
  have hu2 : u = assembled cfg w ec dc := by
    have h0 := init_ok cfg w ec dc hec hdc hwfE.1 hwfD.1
    rw [hu] at h0
    exact Except.ok.inj h0
  subst hu2
  have hlpos : 0 < ipt.length := by
    rcases Nat.eq_zero_or_pos ipt.length with h | h
    · exact absurd (h ▸ dvd_zero (2 ^ cfg.n_layers)) hnd
    · exact h
  obtain ⟨o, tmps, heo, hob, hocn, hol, htl, htf⟩ :=
    encStack_spec cfg w ec hci hke hevE ipt hc hlpos
  obtain ⟨m, hmok, hmb, hmc, hml⟩ := ConvBlock.apply_ok (mkMiddle cfg w) o
    (mkMiddle_good cfg w) (by rw [hocn hn]; rfl)
    (by rw [hol]; exact ceilHalfIter_pos _ _ hlpos)
  cases hdec : decLoop ((List.range cfg.n_layers).map
      (fun i => mkDecoderLayer cfg w i (resolvedRate dc (i + 1)))) tmps.reverse m with
  | error e =>
      refine ⟨e, ?_⟩
      unfold forward
      have hpre : forwardPre (assembled cfg w ec dc) ipt = .error e := by
        show (do
          let p ← encLoop ((List.range cfg.n_layers).map
            (fun i => mkEncoderLayer cfg w i (resolvedRate ec (i + 1)))) ipt
          let m2 ← (mkMiddle cfg w).apply p.1
          let d2 ← decLoop ((List.range cfg.n_layers).map
            (fun i => mkDecoderLayer cfg w i (resolvedRate dc (i + 1)))) p.2.reverse m2
          let c2 ← cat2 d2 ipt
          conv1d (mkOut cfg w) c2) = .error e
        rw [heo, exbind_ok]
        show (do
          let m2 ← (mkMiddle cfg w).apply o
          let d2 ← decLoop ((List.range cfg.n_layers).map
            (fun i => mkDecoderLayer cfg w i (resolvedRate dc (i + 1)))) tmps.reverse m2
          let c2 ← cat2 d2 ipt
          conv1d (mkOut cfg w) c2) = .error e
        rw [hmok, exbind_ok, hdec, exbind_err]
      rw [hpre]
      rfl
  | ok r =>
      exfalso
      have hlen : cfg.n_layers - 1 < ((List.range cfg.n_layers).map
          (fun i => mkDecoderLayer cfg w i (resolvedRate dc (i + 1)))).length := by
        simp only [List.length_map, List.length_range]
        omega
      have hchain := decLoop_ok_chain _
        (by
          intro l hl2
          obtain ⟨i, hi, rfl⟩ := List.mem_map.mp hl2
          exact mkDecoderLayer_good cfg w i _ (List.mem_range.mp hi) hci hkd
            (hevD i (List.mem_range.mp hi)))
        tmps.reverse m r hdec (cfg.n_layers - 1) hlen
      rw [getD_reverse tmps (cfg.n_layers - 1) (by omega) dummyT, htl,
        show cfg.n_layers - 1 - (cfg.n_layers - 1) = 0 by omega,
        show cfg.n_layers - 1 + 1 = cfg.n_layers by omega] at hchain
      obtain ⟨_, _, hlen0⟩ := htf 0 hn
      rw [hlen0] at hchain
      exact hnd ⟨m.length, hchain⟩

/-- C7 witness: the spec scenario — input length 17 with `n_layers = 2`:
assembly succeeds and the forward call returns a shape error. -/
theorem claim_C7_witness :
    ∃ u e, UNet.init cfgA bank0 = .ok u ∧ forward u (zeros 1 1 17) = .error e := by
  have hgood : goodConfig cfgA := by
    refine ⟨by decide, by decide, by decide, by decide, emptyDil, emptyDil, rfl, rfl,
      ?_, ?_, by decide, by decide⟩ <;> exact ⟨rfl, by decide, by decide, by decide⟩
  obtain ⟨⟨u, hu⟩, hrun⟩ := claim_C7 cfgA bank0 hgood
  obtain ⟨e, he⟩ := hrun u hu (zeros 1 1 17) rfl (by decide)
  exact ⟨u, e, hu, he⟩

/-- C1 counterexample: the configuration with an even encoder kernel size 2
(valid per the claim: positive sizes, well-formed dilation configs) assembles,
but on the valid-length input `[1,1,2]` (`L = 1 * 2^1`) the forward pass
raises a shape error instead of returning a `[1,1,2]` tensor: no symmetric
integer padding preserves length for an even effective kernel extent. -/
theorem claim_C1_counterexample :
    ∃ u, UNet.init cfgEvenKernel bank0 = .ok u ∧
      ∃ e, forward u (zeros 1 1 2) = .error e :=
  ⟨_, rfl, "cat: sizes of tensors must match except in dimension 1", rfl⟩

/-- C1 amended: for every configuration that is valid in the claimed sense and
additionally has both dilation configs present and well-formed and every
stage's effective kernel extent `dilation * (kernel_size - 1)` even (e.g. odd
kernel sizes), if assembly succeeds then the forward pass on an input of shape
`[batch, 1, q * 2^n_layers]` (`q ≥ 1`) returns a tensor of shape
`[batch, 1, q * 2^n_layers]`. -/
theorem claim_C1_amended (cfg : ArchitectureConfig) (w : WeightBank) (hgc : goodConfig cfg)
    (u : UNet) (hu : UNet.init cfg w = .ok u)
    (ipt : Tensor ℚ) (b q : Nat) (hq : 1 ≤ q)
    (hb : ipt.batch = b) (hc : ipt.channels = 1) (hl : ipt.length = q * 2 ^ cfg.n_layers) :
    ∃ r, forward u ipt = .ok r ∧ r.batch = b ∧ r.channels = 1 ∧
      r.length = q * 2 ^ cfg.n_layers := by
  obtain ⟨r0, h1, h2, h3, h4⟩ := forwardPre_shape cfg w hgc u hu ipt q hq hc hl
  refine ⟨tanhT r0, ?_, ?_, ?_, ?_⟩
  · unfold forward
    rw [h1]
    rfl
  · exact h2.trans hb
  · exact h3
  · rw [show (tanhT r0).length = r0.length from rfl, h4, hl]

/-- C1 witness at a tiny valid configuration (`n_layers = 1`, kernel size 1,
input `[1,1,2]`). -/
theorem claim_C1_witness :
    ∃ u r, UNet.init cfgTiny bank0 = .ok u ∧ forward u (zeros 1 1 2) = .ok r ∧
      r.batch = 1 ∧ r.channels = 1 ∧ r.length = 2 := by
  have hgood : goodConfig cfgTiny := by
    refine ⟨by decide, by decide, by decide, by decide, emptyDil, emptyDil, rfl, rfl,
      ?_, ?_, by decide, by decide⟩ <;> exact ⟨rfl, by decide, by decide, by decide⟩
  obtain ⟨u, hu⟩ : ∃ u, UNet.init cfgTiny bank0 = .ok u := ⟨_, rfl⟩
  obtain ⟨r, h1, h2, h3, h4⟩ := claim_C1_amended cfgTiny bank0 hgood u hu
    (zeros 1 1 2) 1 1 (by decide) rfl rfl (by decide)
  refine ⟨u, r, hu, h1, h2, h3, ?_⟩
  rw [h4]
  show 1 * 2 ^ (1 : Nat) = 2
  decide

theorem real_tanh_bounds (x : ℝ) : -1 < Real.tanh x ∧ Real.tanh x < 1 := by
  rw [Real.tanh_eq_sinh_div_cosh]
  have hc : 0 < Real.cosh x := Real.cosh_pos x
  constructor
  · rw [lt_div_iff hc]
    have h1 := Real.exp_pos x
    have h2 := Real.cosh_add_sinh x
    nlinarith
  · rw [div_lt_one hc]
    have h1 := Real.exp_pos (-x)
    have h2 := Real.cosh_sub_sinh x
    nlinarith

/-- C8: whenever the forward pass produces an output, every element of that
output lies strictly inside `(-1, 1)`: the output head applies the saturating
`tanh` after the 1×1 projection of the concatenation of the last decoder
output with the original input. -/
theorem claim_C8 (u : UNet) (ipt : Tensor ℚ) (r : Tensor ℝ)
    (h : forward u ipt = .ok r) :
    ∀ b c t, -1 < r.data b c t ∧ r.data b c t < 1 := by
  unfold forward at h
  cases hpre : forwardPre u ipt with
  | error e =>
      rw [hpre, show (Except.error e : Except String (Tensor ℚ)).map tanhT
        = .error e from rfl] at h
      cases h
  | ok y =>
      rw [hpre, show (Except.ok y : Except String (Tensor ℚ)).map tanhT
        = .ok (tanhT y) from rfl] at h
      cases h
      intro b c t
      exact real_tanh_bounds _

/-- C8 witness on a concrete topology and input. -/
theorem claim_C8_witness :
    ∃ r, forward uTriv (zeros 1 1 1) = .ok r ∧
      -1 < r.data 0 0 0 ∧ r.data 0 0 0 < 1 := by
  obtain ⟨r, hr⟩ : ∃ r, forward uTriv (zeros 1 1 1) = .ok r := ⟨_, rfl⟩
  exact ⟨r, hr, claim_C8 uTriv (zeros 1 1 1) r hr 0 0 0⟩

theorem alloc_read (s : Store) (t : Tensor ℚ) : (s.alloc t).1.buf (s.alloc t).2 = t := by
  show (if s.nextId = s.nextId then t else s.buf s.nextId) = t
  rw [if_pos rfl]

theorem alloc_frame (s : Store) (t : Tensor ℚ) (j : Nat) (h : j ≠ s.nextId) :
    (s.alloc t).1.buf j = s.buf j := by
  show (if j = s.nextId then t else s.buf j) = s.buf j
  rw [if_neg h]

theorem write_read (s : Store) (i : Nat) (t : Tensor ℚ) : (s.write i t).buf i = t := by
  show (if i = i then t else s.buf i) = t
  rw [if_pos rfl]

theorem write_frame (s : Store) (i : Nat) (t : Tensor ℚ) (j : Nat) (h : j ≠ i) :
    (s.write i t).buf j = s.buf j := by
  show (if j = i then t else s.buf j) = s.buf j
  rw [if_neg h]

theorem downApplyB_sim (l : ConvBlock) (s : Store) (i : Nat) (s2 : Store) (i2 : Nat)
    (h : downApplyB l s i = .ok (s2, i2)) :
    ∃ v, l.apply (s.buf i) = .ok v ∧ s.nextId ≤ s2.nextId ∧ i2 < s2.nextId ∧
      s2.buf i2 = v ∧ ∀ j, j < s.nextId → s2.buf j = s.buf j := by
  unfold downApplyB at h
  cases hconv : conv1d l.conv (s.buf i) with
  | error e => rw [hconv, exbind_err] at h; cases h
  | ok y =>
      rw [hconv, exbind_ok] at h
      simp only [] at h
      rw [alloc_read] at h
      cases hbn : batchNorm1d l.bn y with
      | error e => rw [hbn, exbind_err] at h; cases h
      | ok z =>
          rw [hbn, exbind_ok, alloc_read] at h
          cases h
          refine ⟨leakyReLU (1 / 10) z, ?_, ?_, ?_, alloc_read _ _, ?_⟩
          · unfold ConvBlock.apply
            rw [hconv, exbind_ok, hbn, exbind_ok]
            rfl
          · show s.nextId ≤ s.nextId + 1 + 1 + 1
            omega
          · show s.nextId + 1 + 1 < s.nextId + 1 + 1 + 1
            omega
          · intro j hj
            rw [alloc_frame _ _ j (by show j ≠ s.nextId + 1 + 1; omega),
              alloc_frame _ _ j (by show j ≠ s.nextId + 1; omega),
              alloc_frame _ _ j (by omega)]

theorem upApplyB_sim (l : ConvBlock) (s : Store) (i : Nat) (s2 : Store) (i2 : Nat)
    (h : upApplyB l s i = .ok (s2, i2)) :
    ∃ v, l.apply (s.buf i) = .ok v ∧ s.nextId ≤ s2.nextId ∧ i2 < s2.nextId ∧
      s2.buf i2 = v ∧ ∀ j, j < s.nextId → s2.buf j = s.buf j := by
  unfold upApplyB at h
  cases hconv : conv1d l.conv (s.buf i) with
  | error e => rw [hconv, exbind_err] at h; cases h
  | ok y =>
      rw [hconv, exbind_ok] at h
      simp only [] at h
      rw [alloc_read] at h
      cases hbn : batchNorm1d l.bn y with
      | error e => rw [hbn, exbind_err] at h; cases h
      | ok z =>
          rw [hbn, exbind_ok, alloc_read] at h
          cases h
          refine ⟨leakyReLU (1 / 10) z, ?_, ?_, ?_, write_read _ _ _, ?_⟩
          · unfold ConvBlock.apply
            rw [hconv, exbind_ok, hbn, exbind_ok]
            rfl
          · show s.nextId ≤ s.nextId + 1 + 1
            omega
          · show s.nextId + 1 < s.nextId + 1 + 1
            omega
          · intro j hj
            rw [write_frame _ _ _ j (by show j ≠ s.nextId + 1; omega),
              alloc_frame _ _ j (by show j ≠ s.nextId + 1; omega),
              alloc_frame _ _ j (by omega)]

theorem encLoopB_sim : ∀ (ls : List ConvBlock) (s : Store) (i : Nat) (s2 : Store)
    (o : Nat) (tl : List Nat), encLoopB ls s i = .ok (s2, o, tl) → i < s.nextId →
    ∃ po ptmps, encLoop ls (s.buf i) = .ok (po, ptmps) ∧
      s.nextId ≤ s2.nextId ∧ o < s2.nextId ∧ s2.buf o = po ∧
      (∀ j, j < s.nextId → s2.buf j = s.buf j) ∧
      tl.length = ptmps.length ∧
      (∀ k, k < tl.length → tl.getD k 0 < s2.nextId ∧
        s2.buf (tl.getD k 0) = ptmps.getD k dummyT) := by
  intro ls
  induction ls with
  | nil =>
      intro s i s2 o tl h hi
      cases h
      exact ⟨s.buf i, [], rfl, le_rfl, hi, rfl, fun _ _ => rfl, rfl,
        fun k hk => absurd hk (by simp)⟩
  | cons l ls ih =>
      intro s i s2 o tl h hi
      unfold encLoopB at h
      cases hd : downApplyB l s i with
      | error e => rw [hd, exbind_err] at h; cases h
      | ok p =>
          rw [hd, exbind_ok] at h
          simp only [] at h
          obtain ⟨v, hva, hnle, hiv, hbv, hfr⟩ := downApplyB_sim l s i p.1 p.2 (by rw [hd])
          rw [hbv] at h
          cases hrec : encLoopB ls (p.1.alloc (decimate v)).1 (p.1.alloc (decimate v)).2 with
          | error e => rw [hrec, exbind_err] at h; cases h
          | ok q =>
              rw [hrec, exbind_ok] at h
              cases h
              obtain ⟨po, ptmps, hpure, hqle, hqo, hqbuf, hqfr, hqlen, hqel⟩ :=
                ih (p.1.alloc (decimate v)).1 (p.1.alloc (decimate v)).2 q.1 q.2.1 q.2.2
                  (by rw [hrec]) (by show p.1.nextId < p.1.nextId + 1; omega)
              rw [alloc_read] at hpure
              have hfr1 : ∀ j, j < p.1.nextId → q.1.buf j = p.1.buf j := by
                intro j hj
                rw [hqfr j (by show j < p.1.nextId + 1; omega),
                  alloc_frame _ _ j (by omega)]
              refine ⟨po, v :: ptmps, ?_, ?_, hqo, hqbuf, ?_, ?_, ?_⟩
              · unfold encLoop
                rw [hva, exbind_ok, hpure, exbind_ok]
                rfl
              · have : p.1.nextId ≤ q.1.nextId := by
                  have h1 : (p.1.alloc (decimate v)).1.nextId ≤ q.1.nextId := hqle
                  show p.1.nextId ≤ q.1.nextId
                  have h2 : (p.1.alloc (decimate v)).1.nextId = p.1.nextId + 1 := rfl
                  omega
                omega
              · intro j hj
                rw [hfr1 j (by omega), hfr j hj]
              · show q.2.2.length + 1 = ptmps.length + 1
                omega
              · intro k hk
                cases k with
                | zero =>
                    rw [List.getD_cons_zero, List.getD_cons_zero]
                    have hplt : p.2 < p.1.nextId := hiv
                    have h2 : p.1.nextId + 1 ≤ q.1.nextId := hqle
                    refine ⟨by omega, ?_⟩
                    rw [hfr1 p.2 hplt]
                    exact hbv
                | succ k =>
                    rw [List.getD_cons_succ, List.getD_cons_succ]
                    exact hqel k (by simpa using hk)

theorem decLoopB_sim : ∀ (ls : List ConvBlock) (ks : List Nat) (s : Store) (i : Nat)
    (s2 : Store) (o : Nat), decLoopB ls ks s i = .ok (s2, o) → i < s.nextId →
    (∀ k ∈ ks, k < s.nextId) →
    ∃ r, decLoop ls (ks.map s.buf) (s.buf i) = .ok r ∧
      s.nextId ≤ s2.nextId ∧ o < s2.nextId ∧ s2.buf o = r ∧
      ∀ j, j < s.nextId → s2.buf j = s.buf j := by
  intro ls
  induction ls with
  | nil =>
      intro ks s i s2 o h hi hks
      cases h
      exact ⟨s.buf i, rfl, le_rfl, hi, rfl, fun _ _ => rfl⟩
  | cons l ls ih =>
      intro ks s i s2 o h hi hks
      cases ks with
      | nil =>
          rw [show decLoopB (l :: ls) [] s i
            = .error "IndexError: list index out of range" from rfl] at h
          cases h
      | cons k ks2 =>
          have hklt : k < s.nextId := hks k (List.mem_cons_self k ks2)
          have h2 : (do
              let su := s.alloc (interpolate2 (s.buf i))
              let c ← cat2 (su.1.buf su.2) (su.1.buf k)
              let sc := su.1.alloc c
              let p ← upApplyB l sc.1 sc.2
              decLoopB ls ks2 p.1 p.2) = .ok (s2, o) := h
          simp only [] at h2
          rw [alloc_read, alloc_frame _ _ k (by omega)] at h2
          cases hcat : cat2 (interpolate2 (s.buf i)) (s.buf k) with
          | error e => rw [hcat, exbind_err] at h2; cases h2
          | ok c =>
              rw [hcat, exbind_ok] at h2
              cases hup : upApplyB l ((s.alloc (interpolate2 (s.buf i))).1.alloc c).1
                  ((s.alloc (interpolate2 (s.buf i))).1.alloc c).2 with
              | error e => rw [hup, exbind_err] at h2; cases h2
              | ok p =>
                  rw [hup, exbind_ok] at h2
                  obtain ⟨v, hva, hnle, hiv, hbv, hfr⟩ := upApplyB_sim l _ _ p.1 p.2
                    (by rw [hup])
                  rw [alloc_read] at hva
                  have hn2 : s.nextId + 1 + 1 ≤ p.1.nextId := hnle
                  obtain ⟨r, hrpure, hrle, hro, hrbuf, hrfr⟩ := ih ks2 p.1 p.2 s2 o h2 hiv
                    (fun a ha => by have := hks a (List.mem_cons_of_mem k ha); omega)
                  have hmapeq : ks2.map p.1.buf = ks2.map s.buf := by
                    apply List.map_congr_left
                    intro a ha
                    have hak : a < s.nextId := hks a (List.mem_cons_of_mem k ha)
                    rw [hfr a (show a < s.nextId + 1 + 1 by omega),
                      alloc_frame _ _ a (show a ≠ s.nextId + 1 by omega),
                      alloc_frame _ _ a (by omega)]
                  rw [hbv, hmapeq] at hrpure
                  refine ⟨r, ?_, by omega, hro, hrbuf, ?_⟩
                  · show (do
                      let c2 ← cat2 (interpolate2 (s.buf i)) (s.buf k)
                      let y ← l.apply c2
                      decLoop ls (ks2.map s.buf) y) = .ok r
                    rw [hcat, exbind_ok, hva, exbind_ok, hrpure]
                  · intro j hj
                    rw [hrfr j (by omega), hfr j (show j < s.nextId + 1 + 1 by omega),
                      alloc_frame _ _ j (show j ≠ s.nextId + 1 by omega),
                      alloc_frame _ _ j (by omega)]

/-- C10: the forward pass never mutates its input buffer — after a successful
buffered run every pre-existing buffer (in particular the input tensor) is
unchanged, and the produced output equals the pure forward pass applied to the
original input, so the tensor concatenated before the output head is the
unmodified original input (the in-place activations write only to
intermediate buffers). -/
theorem claim_C10 (u : UNet) (s : Store) (i : Nat) (hi : i < s.nextId)
    (s2 : Store) (r : Tensor ℝ) (h : forwardB u s i = .ok (s2, r)) :
    (∀ j, j < s.nextId → s2.buf j = s.buf j) ∧ forward u (s.buf i) = .ok r := by
  unfold forwardB at h
  cases he : encLoopB u.encoder s i with
  | error e => rw [he, exbind_err] at h; cases h
  | ok p1 =>
      rw [he, exbind_ok] at h
      obtain ⟨po, ptmps, hepure, hele, heo, hebuf, hefr, helen, heel⟩ :=
        encLoopB_sim u.encoder s i p1.1 p1.2.1 p1.2.2 (by rw [he]) hi
      cases hm : upApplyB u.middle p1.1 p1.2.1 with
      | error e => rw [hm, exbind_err] at h; cases h
      | ok p2 =>
          rw [hm, exbind_ok] at h
          obtain ⟨m, hmva, hmle, hmo, hmbuf, hmfr⟩ :=
            upApplyB_sim u.middle p1.1 p1.2.1 p2.1 p2.2 (by rw [hm])
          rw [hebuf] at hmva
          cases hd : decLoopB u.decoder p1.2.2.reverse p2.1 p2.2 with
          | error e => rw [hd, exbind_err] at h; cases h
          | ok p3 =>
              rw [hd, exbind_ok] at h
              have hksb : ∀ k ∈ p1.2.2.reverse, k < p2.1.nextId := by
                intro k hk
                rw [List.mem_reverse] at hk
                obtain ⟨idx, hidx, hkidx⟩ := List.getElem_of_mem hk
                have hlt := (heel idx hidx).1
                rw [List.getD_eq_getElem _ _ hidx, hkidx] at hlt
                exact lt_of_lt_of_le hlt hmle
              obtain ⟨rd, hdpure, hdle, hdo, hdbuf, hdfr⟩ :=
                decLoopB_sim u.decoder p1.2.2.reverse p2.1 p2.2 p3.1 p3.2 (by rw [hd])
                  hmo hksb
              rw [hmbuf] at hdpure
              have hmap : p1.2.2.reverse.map p2.1.buf = ptmps.reverse := by
                rw [List.map_reverse]
                congr 1
                apply List.ext_getElem
                · rw [List.length_map]
                  exact helen
                · intro n h1 h2
                  have hidx : n < p1.2.2.length := by simpa using h1
                  have hb := heel n hidx
                  rw [List.getD_eq_getElem _ _ hidx] at hb
                  rw [List.getElem_map, hmfr _ hb.1, hb.2, List.getD_eq_getElem _ _ h2]
              rw [hmap] at hdpure
              have hsbi : p3.1.buf i = s.buf i := by
                rw [hdfr i (by omega), hmfr i (by omega), hefr i hi]
              rw [hdbuf, hsbi] at h
              cases hcat : cat2 rd (s.buf i) with
              | error e => rw [hcat, exbind_err] at h; cases h
              | ok c =>
                  rw [hcat, exbind_ok] at h
                  simp only [] at h
                  rw [alloc_read] at h
                  cases hout : conv1d u.out c with
                  | error e => rw [hout, exbind_err] at h; cases h
                  | ok y =>
                      rw [hout, exbind_ok, alloc_read] at h
                      cases h
                      constructor
                      · intro j hj
                        rw [alloc_frame _ _ j (show j ≠ p3.1.nextId + 1 by omega),
                          alloc_frame _ _ j (show j ≠ p3.1.nextId by omega),
                          hdfr j (by omega), hmfr j (by omega), hefr j hj]
                      · unfold forward
                        have hpre : forwardPre u (s.buf i) = .ok y := by
                          show (do
                            let pp ← encLoop u.encoder (s.buf i)
                            let m2 ← u.middle.apply pp.1
                            let d2 ← decLoop u.decoder pp.2.reverse m2
                            let c2 ← cat2 d2 (s.buf i)
                            conv1d u.out c2) = .ok y
                          rw [hepure, exbind_ok]
                          show (do
                            let m2 ← u.middle.apply po
                            let d2 ← decLoop u.decoder ptmps.reverse m2
                            let c2 ← cat2 d2 (s.buf i)
                            conv1d u.out c2) = .ok y
                          rw [hmva, exbind_ok, hdpure, exbind_ok, hcat, exbind_ok, hout]
                        rw [hpre]
                        rfl

/-- C10 witness on a concrete store and topology. -/
theorem claim_C10_witness :
    ∃ p : Store × Tensor ℝ, forwardB uTriv store0 0 = .ok p ∧
      p.1.buf 0 = store0.buf 0 ∧ forward uTriv (store0.buf 0) = .ok p.2 := by
  obtain ⟨p, hp⟩ : ∃ p, forwardB uTriv store0 0 = .ok p := ⟨_, rfl⟩
  obtain ⟨hfr, hfw⟩ := claim_C10 uTriv store0 0 (by decide) p.1 p.2 (by rw [hp])
  exact ⟨p, hp, hfr 0 (by decide), hfw⟩

end WaveUNet
